import Mathlib

/-!
# Verification of the cc-session conversation state synchronization engine

Shallow embedding of the core of the `cc-session` TypeScript library
(`src/chat-message.ts`, `src/session.ts`, `src/types.ts`) and proofs about it.

Modelling conventions:
* JavaScript object identity is modelled by a `ref : Nat` field on
  `ChatMessage`: two live objects are `!==` exactly when their `ref` differs.
  Freshly allocated objects receive their `ref` (and generated ids /
  `Date.now()` stamps) from explicit parameters, since the embedding is pure.
* `number` fields holding token counts are `Nat`; timestamps are `Int`;
  the dollar cost (`total_cost_usd`, a float only ever copied, never computed
  with) is abstracted to `Int`.
* Tool invocation inputs (`input: Record<string, unknown>`) are modelled by
  the closed union `ToolInput`: an uninterpreted payload, a `TodoWrite`-shaped
  object carrying a todo array, or an array of inputs (the shape produced by
  the read coalescer's synthetic `fileReads` input).
* Fallible / side-effecting operations return explicit values: functions that
  broadcast to subscribers return the list of broadcast messages they emit.
-/

namespace CCSession

/-- Todo item emitted by Claude's TodoWrite tool (`types.ts`).  The fields are
`Option` because the implementation reads them off an unchecked cast, so they
may be absent on malformed input. -/
structure TodoItem where
  content : Option String
  status : Option String
deriving DecidableEq, Repr

mutual
/-- Model of a tool invocation's `input: Record<string, unknown>` payload. -/
inductive ToolInput where
  | raw (payload : String)
  | todoWriteInput (todos : List TodoItem)
  | inputList (inputs : ToolInputList)
deriving DecidableEq, Repr

/-- A JSON array of inputs; entries may be `null` (`consNull`), matching the
`toolUsePart ? toolUsePart.content.input : null` mapping in
`createCoalescedReadMessage`. -/
inductive ToolInputList where
  | nil
  | consSome (head : ToolInput) (tail : ToolInputList)
  | consNull (tail : ToolInputList)
deriving DecidableEq, Repr
end

/-- `ToolResultContentBlock` of `types.ts` (the `content` union
`string | TextContentBlock[]` is abstracted to its textual payload). -/
structure ToolResultBlock where
  toolUseId : String
  content : String
  isError : Bool
deriving DecidableEq, Repr

/-- `MessageContentBlock` of `types.ts`: the tagged union of content
fragments. -/
inductive ContentBlock where
  | text (text : String)
  | image (mediaType data : String)
  | document (mediaType data : String) (title : Option String)
  | thinking (thinking : Option String)
  | toolUse (id : String) (toolName : String) (input : ToolInput)
  | toolResult (block : ToolResultBlock)
deriving DecidableEq, Repr

/-- `ChatMessagePart` of `chat-message.ts`: one content fragment plus the
mutable tool-result slot. -/
structure ChatMessagePart where
  content : ContentBlock
  toolResult : Option ToolResultBlock
deriving DecidableEq, Repr

/-- `ChatMessagePart.setToolResult`. -/
def ChatMessagePart.setToolResult (p : ChatMessagePart) (r : ToolResultBlock) :
    ChatMessagePart :=
  { p with toolResult := some r }

/-- `ChatMessageType = SDKMessage["type"]` of `types.ts`. -/
inductive MsgType where
  | user
  | assistant
  | system
  | result
  | streamEvent
deriving DecidableEq, Repr

/-- `ChatMessage` of `chat-message.ts`.  `ref` models JavaScript object
identity (see the header comment). -/
structure ChatMessage where
  type : MsgType
  content : List ChatMessagePart
  timestamp : Int
  id : String
  ref : Nat
deriving DecidableEq, Repr

/-- Usage fields of an assistant SDK message (`message.usage`). -/
structure UsageReport where
  inputTokens : Nat
  outputTokens : Nat
  cacheCreationInputTokens : Option Nat
  cacheReadInputTokens : Option Nat
deriving DecidableEq, Repr

/-- `message.message.content` of a user/assistant SDK message: either a raw
string or an array of content blocks. -/
inductive SDKContent where
  | ofString (s : String)
  | ofBlocks (blocks : List ContentBlock)
deriving DecidableEq, Repr

/-- The discriminated union of update fragments received from the streaming
SDK (`SDKMessage`).  Only the fields the core reads are retained.  String
timestamps are abstracted to their already-parsed numeric value
(`extractMessageTimestamp` / `extractTimestamp` reduce to this `Option Int`). -/
inductive SDKMessage where
  | user (uuid : Option String) (timestamp : Option Int) (sessionId : String)
      (content : SDKContent)
  | assistant (uuid : Option String) (timestamp : Option Int) (sessionId : String)
      (content : SDKContent) (usage : Option UsageReport)
  | system (uuid : Option String) (timestamp : Option Int) (sessionId : String)
      (subtype : String) (model : Option String) (tools : Option (List String))
      (permissionMode : Option String)
  | result (uuid : Option String) (timestamp : Option Int) (sessionId : String)
      (totalCostUsd : Option Int) (modelUsage : List (String × Nat))
  | streamEvent (uuid : Option String) (timestamp : Option Int) (sessionId : String)
deriving DecidableEq, Repr

/-- The `uuid` carried by an SDK message, if any (`extractMessageUuid` falls
back to `nanoid()` when it is absent). -/
def SDKMessage.uuid : SDKMessage → Option String
  | .user u _ _ _ => u
  | .assistant u _ _ _ _ => u
  | .system u _ _ _ _ _ _ => u
  | .result u _ _ _ _ => u
  | .streamEvent u _ _ => u

/-- The numeric timestamp carried by an SDK message
(`extractMessageTimestamp`). -/
def SDKMessage.timestamp : SDKMessage → Option Int
  | .user _ t _ _ => t
  | .assistant _ t _ _ _ => t
  | .system _ t _ _ _ _ _ => t
  | .result _ t _ _ _ => t
  | .streamEvent _ t _ => t

/-- The `session_id` field of an SDK message. -/
def SDKMessage.sessionId : SDKMessage → String
  | .user _ _ s _ => s
  | .assistant _ _ s _ _ => s
  | .system _ _ s _ _ _ _ => s
  | .result _ _ s _ _ => s
  | .streamEvent _ _ s => s

/-- The `ChatMessageType` a fragment renders as. -/
def SDKMessage.chatType : SDKMessage → MsgType
  | .user .. => .user
  | .assistant .. => .assistant
  | .system .. => .system
  | .result .. => .result
  | .streamEvent .. => .streamEvent

/-- One draw of run-time entropy: a generated id (`nanoid()`/`randomUUID()`),
the current clock (`Date.now()`), and a fresh object identity. -/
structure FreshData where
  id : String
  now : Int
  ref : Nat
deriving DecidableEq, Repr

/-- `createChatMessageFromSDKMessage` of `chat-message.ts`.  `fresh` supplies
the `nanoid()` / `Date.now()` fallbacks and the new object's identity. -/
def createChatMessageFromSDKMessage (fresh : FreshData) (message : SDKMessage) :
    Option ChatMessage :=
  let messageId := message.uuid.getD fresh.id
  let timestamp := message.timestamp
  match message.chatType with
  | .user | .assistant =>
    match message with
    | .user _ _ _ (.ofString s) | .assistant _ _ _ (.ofString s) _ =>
      some ⟨message.chatType, [⟨.text s, none⟩], (timestamp.getD fresh.now), messageId,
        fresh.ref⟩
    | .user _ _ _ (.ofBlocks blocks) | .assistant _ _ _ (.ofBlocks blocks) _ =>
      some ⟨message.chatType, blocks.map (fun b => ⟨b, none⟩),
        (timestamp.getD fresh.now), messageId, fresh.ref⟩
    | _ => none
  | .streamEvent => none
  | _ => some ⟨message.chatType, [], timestamp.getD fresh.now, messageId, fresh.ref⟩

/-- Inner loop of `findMostRecentToolUse`: walking the parts of one turn in
order, the first part that is a `tool_use` with the sought id (everything else
is skipped).  Returns its index and the part. -/
def firstToolUseMatch (toolUseId : String) :
    List ChatMessagePart → Option (Nat × ChatMessagePart)
  | [] => none
  | p :: rest =>
    match p.content with
    | .toolUse id _ _ =>
      if id = toolUseId then some (0, p)
      else (firstToolUseMatch toolUseId rest).map fun r => (r.1 + 1, r.2)
    | _ => (firstToolUseMatch toolUseId rest).map fun r => (r.1 + 1, r.2)

/-- One step of the first scan of `findMostRecentToolUse`: inside an
assistant turn, the first matching `tool_use` part is inspected; it is a hit
only when its result slot is still empty (otherwise the inner loop `break`s
and the turn yields nothing). -/
def scanEmptySlot (toolUseId : String) (m : ChatMessage) : Option Nat :=
  if m.type = .assistant then
    match firstToolUseMatch toolUseId m.content with
    | some (j, p) => if p.toolResult = none then some j else none
    | none => none
  else none

/-- One step of the fallback scan of `findMostRecentToolUse`: inside an
assistant turn, the first matching `tool_use` part regardless of its slot. -/
def scanAnyMatch (toolUseId : String) (m : ChatMessage) : Option Nat :=
  if m.type = .assistant then
    (firstToolUseMatch toolUseId m.content).map Prod.fst
  else none

/-- Newest-to-oldest scan: the selector applied to the **last** message that
yields a hit wins.  Returns (message index, part index). -/
def findLastIdx (sel : ChatMessage → Option Nat) :
    List ChatMessage → Option (Nat × Nat)
  | [] => none
  | m :: rest =>
    match findLastIdx sel rest with
    | some (i, j) => some (i + 1, j)
    | none =>
      match sel m with
      | some j => some (0, j)
      | none => none

/-- `findMostRecentToolUse` of `chat-message.ts`, as the pair of indices of
the located part: first the newest-to-oldest scan for a matching invocation
part with an empty result slot, then the fallback scan for the most recent
matching invocation part regardless of its slot. -/
def findMostRecentToolUse (messages : List ChatMessage) (toolUseId : String) :
    Option (Nat × Nat) :=
  match findLastIdx (scanEmptySlot toolUseId) messages with
  | some r => some r
  | none => findLastIdx (scanAnyMatch toolUseId) messages

/-- Replace the `n`-th element of a list by `f` of it (in-place object
mutation made explicit). -/
def updateNth (f : α → α) : List α → Nat → List α
  | [], _ => []
  | x :: xs, 0 => f x :: xs
  | x :: xs, n + 1 => x :: updateNth f xs n

/-- Attach a tool result to the part located at (message index, part index). -/
def attachResultAt (messages : List ChatMessage) (i j : Nat)
    (r : ToolResultBlock) : List ChatMessage :=
  updateNth (fun m => { m with content := updateNth (·.setToolResult r) m.content j })
    messages i

/-- `ToolResultUpdate` of `chat-message.ts` (the `message` object reference is
retained as its id and identity). -/
structure ToolResultUpdate where
  messageId : String
  messageRef : Nat
  toolUseId : String
  toolResult : ToolResultBlock
deriving DecidableEq, Repr

/-- `AppendRenderableMessageResult` of `chat-message.ts`.  `updatedMessages`
holds the turns mutated in place (their value as pushed; only identity and id
are ever read from them downstream), deduplicated by object identity exactly
as `updatedMessages.includes(match.message)` does. -/
structure AppendResult where
  messages : List ChatMessage
  addedMessage : Option ChatMessage
  updatedMessages : List ChatMessage
  toolResultUpdates : List ToolResultUpdate
deriving DecidableEq, Repr

/-- The `tool_result` linking loop of `appendRenderableMessage`: each
`tool_result` block of the incoming user fragment is matched via
`findMostRecentToolUse` against the current (already partially mutated)
history and attached in place; matched turns are recorded, deduplicated by
object identity. -/
def linkToolResults (messages : List ChatMessage) (blocks : List ContentBlock)
    (updAcc : List ChatMessage) (trAcc : List ToolResultUpdate) :
    List ChatMessage × List ChatMessage × List ToolResultUpdate :=
  match blocks with
  | [] => (messages, updAcc, trAcc)
  | b :: rest =>
    match b with
    | .toolResult tr =>
      match findMostRecentToolUse messages tr.toolUseId with
      | some (i, j) =>
        let messages' := attachResultAt messages i j tr
        match messages'[i]? with
        | some target =>
          let updAcc' :=
            if updAcc.any (fun e => e.ref = target.ref) then updAcc
            else updAcc ++ [target]
          linkToolResults messages' rest updAcc'
            (trAcc ++ [⟨target.id, target.ref, tr.toolUseId, tr⟩])
        | none => linkToolResults messages' rest updAcc trAcc
      | none => linkToolResults messages rest updAcc trAcc
    | _ => linkToolResults messages rest updAcc trAcc

/-- `appendRenderableMessage` of `chat-message.ts`: link the incoming user
fragment's tool results into the history, then render the fragment and append
it (when it renders at all). -/
def appendRenderableMessage (fresh : FreshData) (messages : List ChatMessage)
    (incoming : SDKMessage) : AppendResult :=
  let linked :=
    match incoming with
    | .user _ _ _ (.ofBlocks blocks) => linkToolResults messages blocks [] []
    | _ => (messages, [], [])
  match createChatMessageFromSDKMessage fresh incoming with
  | some rendered =>
    ⟨linked.1 ++ [rendered], some rendered, linked.2.1, linked.2.2⟩
  | none => ⟨linked.1, none, linked.2.1, linked.2.2⟩

/-- `isReadToolUse` of `chat-message.ts`: an assistant turn some part of
which is a `tool_use` named `Read`. -/
def isReadToolUse (m : ChatMessage) : Bool :=
  m.type = MsgType.assistant &&
    m.content.any fun part =>
      match part.content with
      | .toolUse _ toolName _ => toolName = "Read"
      | _ => false

/-- `hasSuccessfulToolResult` of `chat-message.ts`: an assistant turn whose
first part carries a non-error tool result. -/
def hasSuccessfulToolResult (m : ChatMessage) : Bool :=
  m.type = MsgType.assistant &&
    match m.content.head? with
    | some firstPart =>
      match firstPart.toolResult with
      | some r => !r.isError
      | none => false
    | none => false

/-- The coalescing predicate: the conjunction tested by the
`coalesceReadMessages` loop. -/
def readPred (m : ChatMessage) : Bool :=
  isReadToolUse m && hasSuccessfulToolResult m

/-- The input of a turn's first `tool_use` part, or a `null` entry
(`createCoalescedReadMessage`'s `fileReads` mapping). -/
def fileReadEntry (m : ChatMessage) : Option ToolInput :=
  match m.content.find? (fun part =>
      match part.content with
      | .toolUse .. => true
      | _ => false) with
  | some part =>
    match part.content with
    | .toolUse _ _ input => some input
    | _ => none
  | none => none

/-- Build the `fileReads` array from the batch. -/
def fileReadsOf : List ChatMessage → ToolInputList
  | [] => .nil
  | m :: rest =>
    match fileReadEntry m with
    | some input => .consSome input (fileReadsOf rest)
    | none => .consNull (fileReadsOf rest)

/-- `createCoalescedReadMessage` of `chat-message.ts`.  `fresh` stands for the
`Math.random()` draw naming the synthetic invocation and for the new object's
identity; identity (`id`) and `timestamp` come from the first turn of the
batch (the `?? Date.now()` / `?? nanoid()` fallbacks for an empty batch are
modelled by fixed defaults, the function is never called on `[]`). -/
def createCoalescedReadMessage (fresh : Nat) (batch : List ChatMessage) :
    ChatMessage :=
  let timestamp := ((batch.head?).map (·.timestamp)).getD 0
  let id := ((batch.head?).map (·.id)).getD "nanoid"
  let toolUseId := "coalesced_" ++ toString fresh
  let toolUse : ContentBlock :=
    .toolUse toolUseId "ReadCoalesced" (.inputList (fileReadsOf batch))
  let toolResult : ToolResultBlock :=
    ⟨toolUseId, "Successfully read " ++ toString batch.length ++ " files", false⟩
  ⟨.assistant, [⟨toolUse, some toolResult⟩], timestamp, id, fresh⟩

/-- The loop of `coalesceReadMessages`, with `fresh` threading the entropy
draws consumed by synthetic turns. -/
def coalesceAux (fresh : Nat) : List ChatMessage → List ChatMessage
  | [] => []
  | m :: rest =>
    if readPred m then
      let batchTail := rest.takeWhile readPred
      if 0 < batchTail.length then
        createCoalescedReadMessage fresh (m :: batchTail) ::
          coalesceAux (fresh + 1) (rest.dropWhile readPred)
      else
        m :: coalesceAux fresh rest
    else
      m :: coalesceAux fresh rest
termination_by l => l.length
decreasing_by
  · simp only [List.length_cons]
    have := (List.dropWhile_suffix (l := rest) readPred).length_le
    omega
  · simp
  · simp

/-- `coalesceReadMessages` of `chat-message.ts`: one left-to-right pass
merging each maximal run (length ≥ 2) of turns satisfying `readPred` into one
synthetic turn. -/
def coalesceReadMessages (messages : List ChatMessage) : List ChatMessage :=
  coalesceAux 0 messages

/-- `UsageSummary` of `types.ts`. -/
structure UsageSummary where
  totalTokens : Nat
  totalCost : Int
  contextWindow : Nat
deriving DecidableEq, Repr

/-- `BroadcastMessage` of `types.ts`: the notification surface delivered to
subscribers. -/
inductive BroadcastMessage where
  | sessionInfo (sessionId : Option String) (messageCount : Nat) (isActive : Bool)
  | messagesLoaded (sessionId : Option String) (messages : List ChatMessage)
  | usageUpdated (sessionId : Option String) (usage : UsageSummary)
  | todosUpdated (sessionId : Option String) (todos : List TodoItem)
  | toolsUpdated (sessionId : Option String) (tools : List String)
  | messageAdded (sessionId : Option String) (message : ChatMessage)
  | messageUpdated (sessionId : Option String) (message : ChatMessage)
  | messageRemoved (sessionId : Option String) (messageId : String)
  | toolResultUpdated (sessionId : Option String) (messageId toolUseId : String)
      (result : ToolResultBlock)
deriving DecidableEq, Repr

/-- Whether a broadcast is a `todos_updated` notification. -/
def BroadcastMessage.isTodosUpdated : BroadcastMessage → Bool
  | .todosUpdated .. => true
  | _ => false

/-- Whether a broadcast is a `tools_updated` notification. -/
def BroadcastMessage.isToolsUpdated : BroadcastMessage → Bool
  | .toolsUpdated .. => true
  | _ => false

/-- Whether a broadcast is a `message_updated` notification. -/
def BroadcastMessage.isMessageUpdated : BroadcastMessage → Bool
  | .messageUpdated .. => true
  | _ => false

/-- Whether a broadcast is a `tool_result_updated` notification. -/
def BroadcastMessage.isToolResultUpdated : BroadcastMessage → Bool
  | .toolResultUpdated .. => true
  | _ => false

/-- The mutable per-`Session` fields of `session.ts`.  The cancellation token
object lives in `tokenHeap` (identity ↦ its `cancelled` flag) so that
flipping the flag after the reference is dropped remains observable, exactly
as for the JavaScript heap. -/
structure SessionState where
  messages : List ChatMessage
  messageCount : Nat
  claudeSessionId : Option String
  error : Option String
  busy : Bool
  isExplicit : Bool
  isLoading : Bool
  pendingTodosBroadcast : Bool
  pendingToolsBroadcast : Bool
  todos : List TodoItem
  tools : List String
  usageData : UsageSummary
  currentMainLoopModel : Option String
  permissionMode : String
  summary : Option String
  lastModifiedTime : Int
  cancellationToken : Option Nat
  tokenHeap : List (Nat × Bool)
  queryActive : Bool
deriving DecidableEq, Repr

/-- `emitSessionInfo` of `session.ts` (the broadcast payload). -/
def emitSessionInfo (s : SessionState) : BroadcastMessage :=
  .sessionInfo s.claudeSessionId s.messageCount s.queryActive

/-- `areTodosEqual` of `session.ts`. -/
def areTodosEqual (left right : List TodoItem) : Bool :=
  left.length = right.length &&
    (List.zip left right).all fun e =>
      e.1.content = e.2.content && e.1.status = e.2.status

/-- `areStringArraysEqual` of `session.ts`. -/
def areStringArraysEqual (left right : List String) : Bool :=
  left.length = right.length && (List.zip left right).all fun e => e.1 = e.2

/-- `updateTodosState` of `session.ts`: replace the list, detect change by
structural equality, and either broadcast, or latch the pending flag while a
bulk load is in progress. -/
def updateTodosState (s : SessionState) (todos : List TodoItem) :
    SessionState × List BroadcastMessage :=
  let changed := !areTodosEqual s.todos todos
  let s := { s with todos := todos }
  if !changed then (s, [])
  else if s.isLoading then ({ s with pendingTodosBroadcast := true }, [])
  else (s, [.todosUpdated s.claudeSessionId s.todos])

/-- `updateToolsState` of `session.ts`. -/
def updateToolsState (s : SessionState) (tools : List String) :
    SessionState × List BroadcastMessage :=
  let changed := !areStringArraysEqual s.tools tools
  let s := { s with tools := tools }
  if !changed then (s, [])
  else if s.isLoading then ({ s with pendingToolsBroadcast := true }, [])
  else (s, [.toolsUpdated s.claudeSessionId s.tools])

/-- `flushPendingStateUpdates` of `session.ts`: emit each latched aggregate
exactly once and clear the latches. -/
def flushPendingStateUpdates (s : SessionState) :
    SessionState × List BroadcastMessage :=
  let todosPart : List BroadcastMessage :=
    if s.pendingTodosBroadcast then [.todosUpdated s.claudeSessionId s.todos] else []
  let toolsPart : List BroadcastMessage :=
    if s.pendingToolsBroadcast then [.toolsUpdated s.claudeSessionId s.tools] else []
  ({ s with pendingTodosBroadcast := false, pendingToolsBroadcast := false },
    todosPart ++ toolsPart)

/-- The `usageData` setter of `session.ts`: store and broadcast. -/
def setUsageData (s : SessionState) (value : UsageSummary) :
    SessionState × List BroadcastMessage :=
  ({ s with usageData := value },
    [.usageUpdated s.claudeSessionId value])

/-- `updateUsage` of `session.ts`: the token total is replaced by the sum of
the report's four token counts; cost and context window are carried over. -/
def updateUsage (s : SessionState) (usage : UsageReport) :
    SessionState × List BroadcastMessage :=
  let totalTokens :=
    usage.inputTokens + (usage.cacheCreationInputTokens.getD 0) +
      (usage.cacheReadInputTokens.getD 0) + usage.outputTokens
  setUsageData s
    ⟨totalTokens, s.usageData.totalCost, s.usageData.contextWindow⟩

/-- `handleResultMessage` of `session.ts`: cost comes from the result
fragment, the context window from `modelUsage` keyed by the current main-loop
model (falling back to the previous value), and the token total is carried
over. -/
def handleResultMessage (s : SessionState) (totalCostUsd : Int)
    (modelUsage : List (String × Nat)) : SessionState × List BroadcastMessage :=
  let modelName := s.currentMainLoopModel.getD ""
  let contextWindow :=
    match modelUsage.find? (fun e => e.1 = modelName) with
    | some e => e.2
    | none => s.usageData.contextWindow
  setUsageData s ⟨s.usageData.totalTokens, totalCostUsd, contextWindow⟩

/-- One block of the TodoWrite extraction loop of `handleAssistantMessage`:
a `tool_use` block named `TodoWrite` whose input carries a todo array
replaces the session's todo list; every other block is ignored. -/
def todoStep (s : SessionState) (b : ContentBlock) :
    SessionState × List BroadcastMessage :=
  match b with
  | .toolUse _ toolName (.todoWriteInput todos) =>
    if toolName = "TodoWrite" then updateTodosState s todos else (s, [])
  | _ => (s, [])

/-- The TodoWrite extraction loop of `handleAssistantMessage`. -/
def processTodoBlocks (s : SessionState) (blocks : List ContentBlock) :
    SessionState × List BroadcastMessage :=
  match blocks with
  | [] => (s, [])
  | b :: rest =>
    let step := todoStep s b
    let next := processTodoBlocks step.1 rest
    (next.1, step.2 ++ next.2)

/-- `handleAssistantMessage` of `session.ts`. -/
def handleAssistantMessage (s : SessionState) (content : SDKContent)
    (usage : Option UsageReport) : SessionState × List BroadcastMessage :=
  let afterTodos :=
    match content with
    | .ofBlocks blocks => processTodoBlocks s blocks
    | .ofString _ => (s, [])
  match usage with
  | some u =>
    let afterUsage := updateUsage afterTodos.1 u
    (afterUsage.1, afterTodos.2 ++ afterUsage.2)
  | none => afterTodos

/-- `processMessage` of `session.ts`: per-fragment aggregate extraction. -/
def processMessage (s : SessionState) (message : SDKMessage) :
    SessionState × List BroadcastMessage :=
  match message with
  | .assistant _ _ _ content usage => handleAssistantMessage s content usage
  | .system _ _ _ subtype model tools permissionMode =>
    if subtype = "init" then
      let s := match model with
        | some m => { s with currentMainLoopModel := some m }
        | none => s
      let afterTools := match tools with
        | some ts => updateToolsState s ts
        | none => (s, [])
      let s := match permissionMode with
        | some pm => { afterTools.1 with permissionMode := pm }
        | none => afterTools.1
      (s, afterTools.2)
    else (s, [])
  | .result _ _ _ (some totalCostUsd) modelUsage =>
    handleResultMessage s totalCostUsd modelUsage
  | _ => (s, [])

/-- `MessageDiff` of `session.ts`. -/
structure MessageDiff where
  added : List ChatMessage
  updated : List ChatMessage
  removed : List String
deriving DecidableEq, Repr

/-- `buildMessageMap` of `session.ts`: an insertion-ordered map from turn id
to turn, keeping the first occurrence of each id. -/
def buildMessageMap (messages : List ChatMessage) : List (String × ChatMessage) :=
  messages.foldl
    (fun acc m => if acc.any (fun e => e.1 = m.id) then acc else acc ++ [(m.id, m)])
    []

/-- Association-list lookup (`Map.get`). -/
def assocFind (entries : List (String × ChatMessage)) (key : String) :
    Option ChatMessage :=
  (entries.find? (fun e => e.1 = key)).map (·.2)

/-- `diffMessages` of `session.ts`.  `previousMessage !== message` is object
identity, i.e. inequality of `ref`. -/
def diffMessages (previous next : List ChatMessage)
    (explicitlyUpdated : List ChatMessage) : MessageDiff :=
  let previousMap := buildMessageMap previous
  let nextMap := buildMessageMap next
  let explicitIds := explicitlyUpdated.map (·.id)
  let added := (nextMap.filter fun e => !previousMap.any (fun p => p.1 = e.1)).map (·.2)
  let removed := (previousMap.filter fun e => !nextMap.any (fun n => n.1 = e.1)).map (·.1)
  let updated := (nextMap.filter fun e =>
    explicitIds.any (fun x => x = e.1) ||
      match assocFind previousMap e.1 with
      | some previousMessage => previousMessage.ref ≠ e.2.ref
      | none => false).map (·.2)
  ⟨added, updated, removed⟩

/-- `applyMessageUpdates` of `session.ts`: install the next snapshot, then
fan out removals, additions, updates, surviving tool-result updates, and a
final session-info broadcast, in that order. -/
def applyMessageUpdates (s : SessionState) (previousMessages nextMessages : List ChatMessage)
    (updatedMessages : List ChatMessage)
    (toolResultUpdates : List ToolResultUpdate) :
    SessionState × List BroadcastMessage :=
  let s := { s with messages := nextMessages, messageCount := nextMessages.length }
  let diff := diffMessages previousMessages nextMessages updatedMessages
  let nextMap := buildMessageMap nextMessages
  let removedNotifs := diff.removed.map
    (fun messageId => BroadcastMessage.messageRemoved s.claudeSessionId messageId)
  let addedNotifs := diff.added.map
    (fun m => BroadcastMessage.messageAdded s.claudeSessionId m)
  let updatedNotifs := diff.updated.map
    (fun m => BroadcastMessage.messageUpdated s.claudeSessionId m)
  let trNotifs := toolResultUpdates.filterMap fun tu =>
    match assocFind nextMap tu.messageId with
    | some m => some (BroadcastMessage.toolResultUpdated s.claudeSessionId m.id
        tu.toolUseId tu.toolResult)
    | none => none
  (s, removedNotifs ++ addedNotifs ++ updatedNotifs ++ trNotifs ++ [emitSessionInfo s])

/-- Heap update for cancellation-token objects. -/
def heapSet (heap : List (Nat × Bool)) (key : Nat) (value : Bool) :
    List (Nat × Bool) :=
  heap.map fun e => if e.1 = key then (e.1, value) else e

/-- `Session.cancel` of `session.ts`: flip the token's flag and drop the
reference when a token exists; unconditionally clear `busy`, drop the query
promise, record the user-cancellation error, and emit a session-info
broadcast. -/
def cancel (s : SessionState) : SessionState × List BroadcastMessage :=
  let s1 :=
    match s.cancellationToken with
    | some t =>
      { s with tokenHeap := heapSet s.tokenHeap t true, cancellationToken := none }
    | none => s
  let s2 := { s1 with
    busy := false
    queryActive := false
    error := some "Operation cancelled by user" }
  (s2, [emitSessionInfo s2])

/-- A subscriber callback, abstracted to whether a given delivery returns
normally (`true`) or throws (`false`). -/
def SubscriberCallback := BroadcastMessage → Bool

/-- `Map.set`: replace the value under an existing key, append otherwise. -/
def registrySet (registry : List (String × SubscriberCallback)) (key : String)
    (cb : SubscriberCallback) : List (String × SubscriberCallback) :=
  if registry.any (fun e => e.1 = key) then
    registry.map fun e => if e.1 = key then (key, cb) else e
  else registry ++ [(key, cb)]

/-- `Map.delete`. -/
def registryDelete (registry : List (String × SubscriberCallback)) (key : String) :
    List (String × SubscriberCallback) :=
  registry.filter fun e => e.1 ≠ key

/-- The unsubscribe closure returned by `Session.subscribe`. -/
def unsubscribe (registry : List (String × SubscriberCallback)) (id : String) :
    List (String × SubscriberCallback) :=
  registryDelete registry id

/-- Outcome of a `subscribe` call: the thrown-or-returned result (`ok` carries
the subscription id, the handle the unsubscribe closure removes), the
subscriber map after the call, and the notifications delivered to the new
callback during the call. -/
structure SubscribeOutcome where
  result : Except String String
  registryAfter : List (String × SubscriberCallback)
  invocations : List BroadcastMessage

/-- `Session.subscribe` of `session.ts`: reject non-callable subscribers
synchronously; otherwise register under a fresh id, deliver one session-info
notification to the new subscriber, and roll the registration back (re-raising)
if that delivery throws. -/
def subscribe (s : SessionState) (registry : List (String × SubscriberCallback))
    (callback : Option SubscriberCallback) (fresh : String) : SubscribeOutcome :=
  match callback with
  | none => ⟨.error "Subscription callback must be a function", registry, []⟩
  | some cb =>
    let registry1 := registrySet registry fresh cb
    let notif := emitSessionInfo s
    if cb notif then ⟨.ok fresh, registry1, [notif]⟩
    else ⟨.error "Subscription callback failed", registryDelete registry1 fresh, [notif]⟩

/-- `processIncomingMessage` of `session.ts`: aggregate extraction, rendering
and linking, coalescing, diff-driven fan-out, then timestamp / session id /
busy bookkeeping. -/
def processIncomingMessage (fresh : FreshData) (s : SessionState)
    (message : SDKMessage) : SessionState × List BroadcastMessage :=
  let pm := processMessage s message
  let previousMessages := pm.1.messages
  let ar := appendRenderableMessage fresh previousMessages message
  let coalesced := coalesceReadMessages ar.messages
  let amu := applyMessageUpdates pm.1 previousMessages coalesced ar.updatedMessages
    ar.toolResultUpdates
  let s2 := { amu.1 with
    lastModifiedTime := (message.timestamp).getD fresh.now,
    claudeSessionId :=
      if message.sessionId = "" then amu.1.claudeSessionId
      else some message.sessionId }
  let s3 :=
    match message with
    | .system _ _ _ subtype _ _ _ =>
      if subtype = "init" then { s2 with busy := true } else s2
    | .result .. => { s2 with busy := false }
    | _ => s2
  (s3, pm.2 ++ amu.2)

/-- The per-part text probe of `extractSummaryFromMessages`. -/
def partSummaryText (part : ChatMessagePart) : Option String :=
  match part.content with
  | .text t => if 0 < t.trim.length then some t.trim else none
  | _ => none

/-- `extractSummaryFromMessages` of `session.ts`: the first nonempty trimmed
text of a user turn. -/
def extractSummaryFromMessages : List ChatMessage → Option String
  | [] => none
  | m :: rest =>
    if m.type = .user then
      match m.content.findSome? partSummaryText with
      | some t => some t
      | none => extractSummaryFromMessages rest
    else extractSummaryFromMessages rest

/-- `extractLastMessageTimestamp` of `session.ts`. -/
def extractLastMessageTimestamp (messages : List SDKMessage) : Option Int :=
  messages.reverse.findSome? SDKMessage.timestamp

/-- The rendering loop of `Session.setMessages`: each historical fragment is
run through `processMessage` (aggregates) and `appendRenderableMessage`
(rendering and linking).  `gen` supplies the entropy draw for each step. -/
def renderAll (gen : Nat → FreshData) (k : Nat) (rendered : List ChatMessage)
    (s : SessionState) :
    List SDKMessage → SessionState × List ChatMessage × List BroadcastMessage
  | [] => (s, rendered, [])
  | m :: rest =>
    let pm := processMessage s m
    let ar := appendRenderableMessage (gen k) rendered m
    let next := renderAll gen (k + 1) ar.messages pm.1 rest
    (next.1, next.2.1, pm.2 ++ next.2.2)

/-- `Session.setMessages` of `session.ts`. -/
def setMessages (gen : Nat → FreshData) (s : SessionState)
    (sdkMessages : List SDKMessage) : SessionState × List BroadcastMessage :=
  let ra := renderAll gen 0 [] s sdkMessages
  let coalesced := coalesceReadMessages ra.2.1
  let s2 := { ra.1 with messages := coalesced, messageCount := coalesced.length }
  let notifs := ra.2.2 ++
    [BroadcastMessage.messagesLoaded s2.claudeSessionId s2.messages,
     emitSessionInfo s2]
  let s3 :=
    match s2.summary with
    | none =>
      match extractSummaryFromMessages ra.2.1 with
      | some t => { s2 with summary := some t }
      | none => s2
    | some _ => s2
  let s4 :=
    match extractLastMessageTimestamp sdkMessages with
    | some t => { s3 with lastModifiedTime := t }
    | none => { s3 with lastModifiedTime := (gen 0).now }
  (s4, notifs)

/-- The `try` body of `loadFromServer` of `session.ts`, given the outcome of
the history fetch: an empty history resets all aggregates and notifies; a
non-empty one replays every fragment through `setMessages`; a fetch failure
records the error. -/
def loadBody (gen : Nat → FreshData) (s : SessionState)
    (fetched : Except String (List SDKMessage)) :
    SessionState × List BroadcastMessage :=
  match fetched with
  | .error e => ({ s with error := some e }, [])
  | .ok msgs =>
    if msgs.isEmpty then
      let s1 := { s with
        messages := []
        messageCount := 0
        summary := none
        lastModifiedTime := (gen 0).now }
      let t1 := updateTodosState s1 []
      let t2 := updateToolsState t1.1 []
      let u := setUsageData t2.1 ⟨0, 0, 0⟩
      let s2 := { u.1 with busy := false, isExplicit := false }
      (s2, t1.2 ++ t2.2 ++ u.2 ++
        [BroadcastMessage.messagesLoaded s2.claudeSessionId s2.messages,
         emitSessionInfo s2])
    else
      let s1 := { s with summary := none }
      let t1 := updateTodosState s1 []
      let t2 := updateToolsState t1.1 []
      let u := setUsageData t2.1 ⟨0, 0, 0⟩
      let sm := setMessages gen u.1 msgs
      let s2 := { sm.1 with busy := false, isExplicit := false }
      (s2, t1.2 ++ t2.2 ++ u.2 ++ sm.2)

/-- The state mutations `loadFromServer` performs before its async body:
adopt the target id, raise the loading flag, clear the error. -/
def loadStart (s : SessionState) (targetSessionId : String) : SessionState :=
  { s with
    claudeSessionId := some targetSessionId
    isLoading := true
    error := none }

/-- `Session.loadFromServer` of `session.ts` for a given target id and fetch
outcome: mark loading, run the body, then (in `finally`) clear the loading
flag and flush the latched aggregate broadcasts. -/
def loadFromServerModel (gen : Nat → FreshData) (s : SessionState)
    (targetSessionId : String) (fetched : Except String (List SDKMessage)) :
    SessionState × List BroadcastMessage :=
  let body := loadBody gen (loadStart s targetSessionId) fetched
  let s1 := { body.1 with isLoading := false }
  let fl := flushPendingStateUpdates s1
  (fl.1, body.2 ++ fl.2)

/-!
## Event-loop model of `Session.send` concurrency

`Session.send` serializes concurrent callers with

```
if (this.queryPromise) { await this.queryPromise; }
... this.queryPromise = (async () => { for await (...) {...} finally {...} })();
... await this.queryPromise;
```

The model below is a deterministic small-step interpreter for this control
flow under JavaScript's single-threaded, FIFO-microtask semantics.  Each send
caller is one task; a task's life is: run the entry check (`entry`); if a
query promise is stored, register as a waiter on it (`waitingSend`); once
runnable again, proceed (the code performs no re-check after the await):
store its own query promise, start the streaming loop and suspend at each
fragment await (`streaming n` = n fragments left); on completion run the
`finally` block (clear the stored promise and busy flag) and wake all waiters
of its promise in registration order. -/
inductive TaskPhase where
  | entry
  | waitingSend (target : Nat)
  | streaming (remaining : Nat)
  | done
deriving DecidableEq, Repr

/-- Whether a task's streaming read loop is live (its "Sending" period). -/
def TaskPhase.isStreaming : TaskPhase → Bool
  | .streaming _ => true
  | _ => false

/-- The scheduler state: the session's `queryPromise` and `busy` fields, each
task's phase, the FIFO microtask queue of runnable tasks, and the waiter
registrations (promise owner, waiting task). -/
structure SendSim where
  queryPromise : Option Nat
  busy : Bool
  phases : List TaskPhase
  runQueue : List Nat
  waiters : List (Nat × Nat)
deriving DecidableEq, Repr

/-- Fragments each modelled stream yields before completing. -/
def sendFragmentCount : Nat := 2

/-- A send proceeding past the entry check: store its promise, set `busy`,
run the streaming loop up to its first fragment await, stay scheduled. -/
def startStreaming (sim : SendSim) (t : Nat) : SendSim :=
  { sim with
    queryPromise := some t
    busy := true
    phases := updateNth (fun _ => .streaming sendFragmentCount) sim.phases t
    runQueue := sim.runQueue ++ [t] }

/-- Dispatch one scheduled task. -/
def stepTask (sim : SendSim) (t : Nat) : SendSim :=
  match (sim.phases.getD t .done) with
  | .entry =>
    match sim.queryPromise with
    | some p =>
      { sim with
        phases := updateNth (fun _ => .waitingSend p) sim.phases t
        waiters := sim.waiters ++ [(p, t)] }
    | none => startStreaming sim t
  | .waitingSend _ => startStreaming sim t
  | .streaming (n + 1) =>
    { sim with
      phases := updateNth (fun _ => .streaming n) sim.phases t
      runQueue := sim.runQueue ++ [t] }
  | .streaming 0 =>
    let woken := (sim.waiters.filter (fun w => w.1 = t)).map (·.2)
    { sim with
      queryPromise := none
      busy := false
      phases := updateNth (fun _ => .done) sim.phases t
      runQueue := sim.runQueue ++ woken
      waiters := sim.waiters.filter (fun w => w.1 ≠ t) }
  | .done => sim

/-- One scheduler step: run the task at the head of the microtask queue. -/
def simStep (sim : SendSim) : SendSim :=
  match sim.runQueue with
  | [] => sim
  | t :: rest => stepTask { sim with runQueue := rest } t

/-- Iterated scheduler. -/
def simStepN : Nat → SendSim → SendSim
  | 0, sim => sim
  | n + 1, sim => simStepN n (simStep sim)

/-- Number of tasks whose streaming read loop is currently live. -/
def countStreaming (sim : SendSim) : Nat :=
  sim.phases.countP TaskPhase.isStreaming

/-- Three send callers: task 0 arrives first; tasks 1 and 2 call `send` while
task 0's query is still in flight. -/
def sendSimInit : SendSim :=
  ⟨none, false, [.entry, .entry, .entry], [0, 1, 2], []⟩

/-!
## Formalizations of claim text (used to exhibit counterexamples)

These definitions follow the wording of the specification claims, not the
source, and exist to be compared against the source-derived definitions. -/

/-- Claim C1's target-selection rule, as stated: scanning turns
newest-to-oldest and, within an assistant turn, **all** parts in order, the
first invocation part with the sought id whose result slot is still empty. -/
def claimEmptySlotScan (toolUseId : String) (m : ChatMessage) : Option Nat :=
  if m.type = .assistant then
    m.content.findIdx? fun p =>
      (match p.content with
       | .toolUse id _ _ => id = toolUseId
       | _ => false) && p.toolResult.isNone
  else none

/-- Claim C1's attachment target over the whole history. -/
def claimFindTarget (messages : List ChatMessage) (toolUseId : String) :
    Option (Nat × Nat) :=
  findLastIdx (claimEmptySlotScan toolUseId) messages

/-- Claim C3's run predicate, as stated: an assistant turn that is
single-invocation, named as the read tool, and already carrying a non-error
result. -/
def claimSingleReadPred (m : ChatMessage) : Bool :=
  m.type = MsgType.assistant &&
    match m.content with
    | [p] =>
      (match p.content with
       | .toolUse _ toolName _ => toolName = "Read"
       | _ => false) &&
      (match p.toolResult with
       | some r => !r.isError
       | none => false)
    | _ => false

/-!
## Concrete inputs -/

/-- A successful tool result answering invocation `X`. -/
def resX0 : ToolResultBlock := ⟨"X", "first result", false⟩

/-- A second tool result for invocation `X`. -/
def resX1 : ToolResultBlock := ⟨"X", "second result", true⟩

/-- An assistant turn holding two invocation parts with the same id `X`: the
first already answered, the second still pending. -/
def c1Turn : ChatMessage :=
  ⟨.assistant,
    [⟨.toolUse "X" "Bash" (.raw "cmd1"), some resX0⟩,
     ⟨.toolUse "X" "Bash" (.raw "cmd2"), none⟩],
    10, "m1", 1⟩

/-- History for the C1 counterexample. -/
def c1Msgs : List ChatMessage := [c1Turn]

/-- An assistant turn with a single pending invocation part with id `X`. -/
def w1Turn : ChatMessage :=
  ⟨.assistant, [⟨.toolUse "X" "Bash" (.raw "cmd"), none⟩], 3, "w1", 9⟩

/-- A successful `Read` invocation part. -/
def readPart (fileName : String) (toolUseId : String) : ChatMessagePart :=
  ⟨.toolUse toolUseId "Read" (.raw fileName),
    some ⟨toolUseId, "contents of " ++ fileName, false⟩⟩

/-- An assistant turn with a successful `Read` invocation **and** a second
invocation part: it satisfies the code's coalescing predicate but is not
single-invocation. -/
def c3Turn (toolUseId : String) (fileName : String) (ref : Nat) : ChatMessage :=
  ⟨.assistant,
    [readPart fileName toolUseId,
     ⟨.toolUse (toolUseId ++ "b") "Grep" (.raw "pattern"), none⟩],
    20, "c3-" ++ toolUseId, ref⟩

/-- History for the C3 counterexample: two consecutive such turns. -/
def c3Msgs : List ChatMessage := [c3Turn "t1" "a.txt" 2, c3Turn "t2" "b.txt" 3]

/-- A bare turn with the given id and object identity. -/
def turnW (id : String) (ref : Nat) : ChatMessage := ⟨.user, [], 0, id, ref⟩

/-- Previous snapshot for the differ witness. -/
def diffPrevW : List ChatMessage := [turnW "a" 1, turnW "b" 2]

/-- Next snapshot for the differ witness: `a` rebuilt under a new object,
`b` gone, `c` added. -/
def diffNextW : List ChatMessage := [turnW "a" 4, turnW "c" 3]

/-- A session state with nothing in flight (no cancellation token, no query
promise, no recorded error). -/
def idleState : SessionState :=
  ⟨[], 0, none, none, false, false, false, false, false, [], [], ⟨0, 0, 0⟩,
    none, "default", none, 0, none, [], false⟩

/-- A session state with a nonzero usage aggregate. -/
def usageStateW : SessionState := { idleState with usageData := ⟨7, 11, 13⟩ }

/-- An assistant fragment carrying a usage report. -/
def sdkAssistantW : SDKMessage :=
  .assistant (some "u1") (some 5) "sess" (.ofBlocks [])
    (some ⟨10, 20, some 30, some 40⟩)

/-- A plain user fragment. -/
def sdkUserW : SDKMessage := .user none none "s" (.ofString "hi")

/-- A subscriber callback whose deliveries always return normally. -/
def subOkW : SubscriberCallback := fun _ => true

/-- A subscriber callback that throws on every delivery. -/
def subFailW : SubscriberCallback := fun _ => false

/-- A `TodoWrite` invocation fragment carrying the given todo list. -/
def todoWriteMsg (uuid : String) (todos : List TodoItem) : SDKMessage :=
  .assistant (some uuid) (some 5) "sess"
    (.ofBlocks [.toolUse ("tw-" ++ uuid) "TodoWrite" (.todoWriteInput todos)]) none

/-- A plain assistant text fragment. -/
def plainAssistantMsg (uuid : String) : SDKMessage :=
  .assistant (some uuid) (some 5) "sess" (.ofBlocks [.text "hello"]) none

/-- A history containing three `TodoWrite` invocations (claim C6's
scenario). -/
def c6History : List SDKMessage :=
  [plainAssistantMsg "a1",
   todoWriteMsg "a2" [⟨some "step 1", some "pending"⟩],
   plainAssistantMsg "a3",
   todoWriteMsg "a4" [⟨some "step 1", some "in_progress"⟩],
   todoWriteMsg "a5" [⟨some "step 1", some "completed"⟩],
   plainAssistantMsg "a6"]

/-- A fixed entropy supply for concrete scenarios. -/
def genDefault : Nat → FreshData :=
  fun k => ⟨"gen-" ++ toString k, 1000 + k, 5000 + k⟩

/-- A session state with an operation in flight: a live cancellation token
(identity 7, not yet cancelled) and an active query promise. -/
def busyState : SessionState :=
  { idleState with
    busy := true
    queryActive := true
    cancellationToken := some 7
    tokenHeap := [(7, false)] }

/-- Turn `i` of the history is an assistant turn whose first invocation part
with the given id (at part index `j`) still has an empty result slot. -/
def EmptyTargetAt (messages : List ChatMessage) (toolUseId : String)
    (i j : Nat) : Prop :=
  ∃ m p, messages[i]? = some m ∧ m.type = .assistant ∧
    firstToolUseMatch toolUseId m.content = some (j, p) ∧ p.toolResult = none

/-- Turn `i` of the history is an assistant turn whose first invocation part
with the given id sits at part index `j` (answered or not). -/
def AnyTargetAt (messages : List ChatMessage) (toolUseId : String)
    (i j : Nat) : Prop :=
  ∃ m p, messages[i]? = some m ∧ m.type = .assistant ∧
    firstToolUseMatch toolUseId m.content = some (j, p)

/-- Adjacent-run-freedom: no two consecutive turns both satisfy the
coalescing predicate (every `readPred` run has length ≤ 1). -/
def NoAdjacentReads (l : List ChatMessage) : Prop :=
  List.Chain' (fun a b => ¬(readPred a = true ∧ readPred b = true)) l

/-- A history turn for claim C10: an assistant turn whose only invocation
part carries id `A`, so result id `Z` matches nothing in the history. -/
def c10Msg : ChatMessage :=
  ⟨.assistant, [⟨.toolUse "A" "Bash" (.raw "ls"), none⟩], 5, "m1", 100⟩

/-- A session whose history is the single turn `c10Msg`. -/
def c10State : SessionState :=
  { idleState with
    messages := [c10Msg]
    messageCount := 1 }

/-- An incoming user fragment body for claim C10: a tool result whose
invocation id `Z` is unmatched in the history, plus a plain text block. -/
def c10Blocks : List ContentBlock :=
  [.toolResult ⟨"Z", "stale result", false⟩, .text "hi"]

/-!
# Theorems
-/

/-- C7: under the event-loop model of `Session.send`, three concurrent
callers — two of which arrive while the first one's query is in flight —
reach a state in which two sends' streaming read loops are live at once
(tasks 1 and 2 both resume after task 0 resolves, and neither awaits the
other), violating the claimed serialization invariant. -/
theorem send_serialization_violated :
    countStreaming (simStepN 8 sendSimInit) = 2 ∧
    (simStepN 8 sendSimInit).phases = [.done, .streaming 2, .streaming 2] := by
  decide

/-- C8 counterexample: with nothing in flight (`cancellationToken` is null),
`cancel()` is not a no-op — it still records the user-cancellation error,
mutating the session, and emits a session-info notification. -/
theorem cancel_not_noop_when_idle :
    idleState.cancellationToken = none ∧
    (cancel idleState).1 ≠ idleState ∧
    (cancel idleState).2 ≠ [] := by
  decide

/-- C8 (amended): when an operation is in flight, `cancel()` flips that
operation's cancellation flag in place and discards the token reference; in
all cases — in flight or not — it clears the busy flag, discards the query
promise, records the user-cancellation error, and emits exactly one
session-info notification (so it is not a no-op when nothing is in flight,
but it then touches neither token nor heap). -/
theorem cancel_spec (s : SessionState) :
    ((∀ t, s.cancellationToken = some t →
        (cancel s).1 = { s with
          tokenHeap := heapSet s.tokenHeap t true
          cancellationToken := none
          busy := false
          queryActive := false
          error := some "Operation cancelled by user" }) ∧
      (s.cancellationToken = none →
        (cancel s).1 = { s with
          busy := false
          queryActive := false
          error := some "Operation cancelled by user" })) ∧
    (cancel s).2 =
      [BroadcastMessage.sessionInfo s.claudeSessionId s.messageCount false] := by
  refine ⟨⟨fun t ht => ?_, fun ht => ?_⟩, ?_⟩ <;>
    cases hc : s.cancellationToken <;>
    simp_all [cancel, emitSessionInfo]

/-- C8 witness: `cancel_spec` applied to a busy state (token in flight) and
to the idle state. -/
theorem cancel_spec_witness :
    (cancel busyState).1 = { busyState with
      tokenHeap := heapSet busyState.tokenHeap 7 true
      cancellationToken := none
      busy := false
      queryActive := false
      error := some "Operation cancelled by user" } ∧
    (cancel idleState).1 = { idleState with
      busy := false
      queryActive := false
      error := some "Operation cancelled by user" } :=
  ⟨(cancel_spec busyState).1.1 7 rfl, (cancel_spec idleState).1.2 rfl⟩

/-- Empty-list unfolding of the coalescing loop. -/
theorem coalesceAux_nil (k : Nat) : coalesceAux k [] = [] := by
  rw [coalesceAux]

/-- One-step unfolding of the coalescing loop. -/
theorem coalesceAux_cons (k : Nat) (m : ChatMessage) (rest : List ChatMessage) :
    coalesceAux k (m :: rest) =
      if readPred m then
        if 0 < (rest.takeWhile readPred).length then
          createCoalescedReadMessage k (m :: rest.takeWhile readPred) ::
            coalesceAux (k + 1) (rest.dropWhile readPred)
        else m :: coalesceAux k rest
      else m :: coalesceAux k rest := by
  rw [coalesceAux]

/-- A synthetic coalesced turn never satisfies the coalescing predicate: its
single invocation part is named `ReadCoalesced`, not `Read`. -/
theorem readPred_coalesced (fresh : Nat) (batch : List ChatMessage) :
    readPred (createCoalescedReadMessage fresh batch) = false := by
  simp [readPred, createCoalescedReadMessage, isReadToolUse]

/-- When a list does not start with a predicate-satisfying turn, coalescing
leaves its head in place. -/
theorem coalesceAux_head? (k : Nat) (l : List ChatMessage)
    (h : ∀ y, l.head? = some y → readPred y = false) :
    (coalesceAux k l).head? = l.head? := by
  match l with
  | [] => rw [coalesceAux_nil]
  | y :: t =>
    have hy : readPred y = false := h y rfl
    rw [coalesceAux_cons, hy]
    simp

/-- The output of the coalescing loop never contains two adjacent turns that
both satisfy the coalescing predicate. -/
theorem chain'_coalesceAux :
    ∀ (n k : Nat) (l : List ChatMessage), l.length ≤ n →
      NoAdjacentReads (coalesceAux k l) := by
  intro n
  induction n with
  | zero =>
    intro k l hl
    have : l = [] := List.length_eq_zero.mp (Nat.le_zero.mp hl)
    subst this
    rw [coalesceAux_nil]
    exact List.chain'_nil
  | succ n ih =>
    intro k l hl
    match l with
    | [] =>
      rw [coalesceAux_nil]
      exact List.chain'_nil
    | m :: rest =>
      have hrestlen : rest.length ≤ n := by
        simp only [List.length_cons] at hl
        omega
      rw [coalesceAux_cons]
      by_cases hm : readPred m
      · by_cases hbatch : 0 < (rest.takeWhile readPred).length
        · rw [if_pos hm, if_pos hbatch]
          refine List.chain'_cons'.mpr ⟨fun y _ hcontra => ?_, ?_⟩
          · rw [readPred_coalesced] at hcontra
            exact absurd hcontra.1 (by simp)
          · refine ih (k + 1) (rest.dropWhile readPred) ?_
            exact Nat.le_trans (List.dropWhile_suffix readPred).length_le hrestlen
        · rw [if_pos hm, if_neg hbatch]
          have hb : rest.takeWhile readPred = [] :=
            List.length_eq_zero.mp (Nat.eq_zero_of_not_pos hbatch)
          have hrest : ∀ y, rest.head? = some y → readPred y = false := by
            intro y hy
            cases rest with
            | nil => simp at hy
            | cons z t =>
              have hz : z = y := by simpa using hy
              subst hz
              by_contra hyp
              rw [List.takeWhile_cons, eq_true_of_ne_false hyp] at hb
              simp at hb
          refine List.chain'_cons'.mpr ⟨fun y hy hcontra => ?_, ih k rest hrestlen⟩
          rw [coalesceAux_head? k rest hrest] at hy
          exact absurd hcontra.2 (by simp [hrest y hy])
      · rw [if_neg hm]
        refine List.chain'_cons'.mpr ⟨fun y _ hcontra => ?_, ih k rest hrestlen⟩
        exact absurd hcontra.1 (by simp [hm])

/-- On a list with no adjacent predicate-satisfying turns, coalescing is the
identity: every run has length 1 and passes through unchanged. -/
theorem coalesceAux_of_chain (k : Nat) (l : List ChatMessage)
    (h : NoAdjacentReads l) : coalesceAux k l = l := by
  induction l generalizing k with
  | nil => rw [coalesceAux_nil]
  | cons m rest ih =>
    rw [coalesceAux_cons]
    have htail : NoAdjacentReads rest := (List.chain'_cons'.mp h).2
    by_cases hm : readPred m
    · rw [if_pos hm]
      have hbatch : rest.takeWhile readPred = [] := by
        match rest with
        | [] => rfl
        | y :: t =>
          have hy : ¬(readPred m = true ∧ readPred y = true) :=
            (List.chain'_cons'.mp h).1 y rfl
          have : readPred y = false := by
            by_contra hyp
            exact hy ⟨hm, eq_true_of_ne_false hyp⟩
          simp [List.takeWhile_cons, this]
      rw [hbatch]
      simp [ih k htail]
    · rw [if_neg hm]
      simp [ih k htail]

/-- C4: the read coalescer is idempotent — applied to its own output it
changes nothing, because collapsed runs are replaced by synthetic turns that
no longer satisfy the coalescing predicate and surviving runs all have
length 1. -/
theorem coalesceReadMessages_idempotent (l : List ChatMessage) :
    coalesceReadMessages (coalesceReadMessages l) = coalesceReadMessages l :=
  coalesceAux_of_chain 0 (coalesceAux 0 l)
    (chain'_coalesceAux l.length 0 l (Nat.le_refl _))

/-- A list whose head fails the predicate has an empty `takeWhile`. -/
theorem takeWhile_nil_of_head (p : ChatMessage → Bool) (l : List ChatMessage)
    (h : ∀ y, l.head? = some y → p y = false) : l.takeWhile p = [] := by
  cases l with
  | nil => rfl
  | cons y t =>
    rw [List.takeWhile_cons, h y rfl]
    simp

/-- A list whose head fails the predicate is fixed by `dropWhile`. -/
theorem dropWhile_id_of_head (p : ChatMessage → Bool) (l : List ChatMessage)
    (h : ∀ y, l.head? = some y → p y = false) : l.dropWhile p = l := by
  cases l with
  | nil => rfl
  | cons y t => rw [List.dropWhile_cons, h y rfl]; simp

/-- `takeWhile` stops strictly inside a list containing a failing element. -/
theorem takeWhile_length_ne (p : ChatMessage → Bool) (l : List ChatMessage)
    (z : ChatMessage) (hz : z ∈ l) (hpz : p z = false) :
    (l.takeWhile p).length ≠ l.length := by
  intro hlen
  have : l.takeWhile p = l := (List.takeWhile_prefix p).eq_of_length hlen
  have : p z = true := List.takeWhile_eq_self_iff.mp this z hz
  simp [hpz] at this

/-- The last element of a nonempty suffix is the last element of the list. -/
theorem getLast?_of_suffix {l' l : List ChatMessage} (h : l' <:+ l)
    (hne : l' ≠ []) : l.getLast? = l'.getLast? := by
  obtain ⟨t, rfl⟩ := h
  rw [List.getLast?_append]
  cases hx : l'.getLast? with
  | none => exact absurd (List.getLast?_eq_none_iff.mp hx) hne
  | some x => rfl

/-- The run-collapsing behaviour of the coalescing loop: a maximal
`readPred`-run of length ≥ 2 sitting between a prefix ending in a
non-satisfying turn and a suffix starting with one is replaced by exactly one
synthetic turn, while the surrounding turns are processed independently. -/
theorem coalesceAux_run_collapse :
    ∀ (n : Nat) (a : List ChatMessage) (k : Nat) (run b : List ChatMessage),
      a.length ≤ n →
      2 ≤ run.length →
      (∀ m ∈ run, readPred m = true) →
      (∀ x, a.getLast? = some x → readPred x = false) →
      (∀ y, b.head? = some y → readPred y = false) →
      ∃ fresh, coalesceAux k (a ++ run ++ b) =
        coalesceAux k a ++ createCoalescedReadMessage fresh run ::
          coalesceAux (fresh + 1) b := by
  intro n
  induction n with
  | zero =>
    intro a k run b hlen h2 hrun _ hb
    have ha : a = [] := List.length_eq_zero.mp (Nat.le_zero.mp hlen)
    subst ha
    cases run with
    | nil => simp at h2
    | cons r0 rtail =>
      refine ⟨k, ?_⟩
      have hrtail : rtail ≠ [] := by
        intro hn
        rw [hn] at h2
        simp at h2
      have hallt : ∀ m ∈ rtail, readPred m = true :=
        fun m hm => hrun m (List.mem_cons_of_mem _ hm)
      have htw : List.takeWhile readPred (rtail ++ b) = rtail := by
        rw [List.takeWhile_append, List.takeWhile_eq_self_iff.mpr hallt,
          takeWhile_nil_of_head _ b hb]
        simp
      have hdw : List.dropWhile readPred (rtail ++ b) = b := by
        rw [List.dropWhile_append, List.dropWhile_eq_nil_iff.mpr hallt,
          dropWhile_id_of_head _ b hb]
        simp
      rw [List.nil_append, List.cons_append, coalesceAux_cons,
        if_pos (hrun r0 (List.mem_cons_self _ _)), htw, hdw,
        if_pos (List.length_pos.mpr hrtail), coalesceAux_nil, List.nil_append]
  | succ n ih =>
    intro a k run b hlen h2 hrun ha hb
    match a with
    | [] => exact ih [] k run b (by simp) h2 hrun (by simp) hb
    | x :: a' =>
      have ha'len : a'.length ≤ n := by
        simp only [List.length_cons] at hlen
        omega
      by_cases hx : readPred x
      · have ha'ne : a' ≠ [] := by
          intro hn
          subst hn
          have := ha x (by simp)
          simp [hx] at this
        have hlast : ∀ z, a'.getLast? = some z → readPred z = false := by
          intro z hz
          refine ha z ?_
          rw [List.getLast?_cons, hz]
          rfl
        obtain ⟨zl, hzl⟩ : ∃ zl, a'.getLast? = some zl :=
          Option.ne_none_iff_exists'.mp (by simpa using ha'ne)
        have hzlm : zl ∈ a' := List.mem_of_mem_getLast? hzl
        have hzlf : readPred zl = false := hlast zl hzl
        have hTW : List.takeWhile readPred (a' ++ run ++ b) =
            List.takeWhile readPred a' := by
          rw [List.append_assoc, List.takeWhile_append,
            if_neg (takeWhile_length_ne _ _ zl hzlm hzlf)]
        have hDW : List.dropWhile readPred (a' ++ run ++ b) =
            List.dropWhile readPred a' ++ run ++ b := by
          rw [List.append_assoc, List.dropWhile_append, if_neg (by
            intro hcon
            have : List.dropWhile readPred a' = [] := by
              cases hd : List.dropWhile readPred a' with
              | nil => rfl
              | cons u v => rw [hd] at hcon; simp at hcon
            have := List.dropWhile_eq_nil_iff.mp this zl hzlm
            simp [hzlf] at this), List.append_assoc]
        by_cases hbt : 0 < (List.takeWhile readPred a').length
        · -- a run inside the prefix is collapsed first; recurse on its tail
          have hdw_ne : List.dropWhile readPred a' ≠ [] := by
            intro hn
            have := List.dropWhile_eq_nil_iff.mp hn zl hzlm
            simp [hzlf] at this
          have hdw_last : ∀ z, (List.dropWhile readPred a').getLast? = some z →
              readPred z = false := by
            intro z hz
            refine hlast z ?_
            rw [getLast?_of_suffix (List.dropWhile_suffix readPred) hdw_ne]
            exact hz
          have hdw_len : (List.dropWhile readPred a').length ≤ n :=
            Nat.le_trans (List.dropWhile_suffix readPred).length_le ha'len
          obtain ⟨fresh, hfresh⟩ :=
            ih (List.dropWhile readPred a') (k + 1) run b hdw_len h2 hrun hdw_last hb
          refine ⟨fresh, ?_⟩
          rw [List.cons_append, List.cons_append, coalesceAux_cons, if_pos hx,
            hTW, hDW, if_pos hbt, hfresh]
          rw [coalesceAux_cons, if_pos hx, if_pos hbt]
          simp
        · -- the prefix head starts a run of length one; it passes through
          have hbt' : List.takeWhile readPred a' = [] :=
            List.length_eq_zero.mp (Nat.eq_zero_of_not_pos hbt)
          have ha'head : ∀ y, a'.head? = some y → readPred y = false := by
            intro y hy
            cases a' with
            | nil => simp at hy
            | cons z t =>
              have hz : z = y := by simpa using hy
              subst hz
              by_contra hyp
              rw [List.takeWhile_cons, eq_true_of_ne_false hyp] at hbt'
              simp at hbt'
          obtain ⟨fresh, hfresh⟩ := ih a' k run b ha'len h2 hrun hlast hb
          refine ⟨fresh, ?_⟩
          have hnz : ¬ 0 < (List.nil (α := ChatMessage)).length := by simp
          rw [List.cons_append, List.cons_append, coalesceAux_cons, if_pos hx,
            hTW, hbt', if_neg hnz, hfresh, coalesceAux_cons, if_pos hx, hbt',
            if_neg hnz]
          simp
      · obtain ⟨fresh, hfresh⟩ := ih a' k run b ha'len h2 hrun (by
          intro z hz
          refine ha z ?_
          cases a' with
          | nil => simp at hz
          | cons u v =>
            rw [List.getLast?_cons, hz]
            rfl) hb
        refine ⟨fresh, ?_⟩
        rw [List.cons_append, List.cons_append, coalesceAux_cons, if_neg hx,
          hfresh, coalesceAux_cons, if_neg hx]
        simp

/-- C3 counterexample: both turns of `c3Msgs` carry a second invocation part,
so neither is "single-invocation" as the claim requires — yet the coalescer
does not pass them through unchanged; it merges them (the code predicate only
requires *some* part to be a `Read` invocation and the *first* part to carry
a non-error result). -/
theorem coalesce_single_invocation_counterexample :
    (∀ m ∈ c3Msgs, claimSingleReadPred m = false) ∧
    coalesceReadMessages c3Msgs ≠ c3Msgs := by
  constructor
  · decide
  · have h1 : readPred (c3Turn "t1" "a.txt" 2) = true := by decide
    have h2 : List.takeWhile readPred [c3Turn "t2" "b.txt" 3] =
        [c3Turn "t2" "b.txt" 3] := by decide
    have h3 : List.dropWhile readPred [c3Turn "t2" "b.txt" 3] = [] := by decide
    have hc : coalesceReadMessages c3Msgs = [createCoalescedReadMessage 0 c3Msgs] := by
      rw [coalesceReadMessages,
        show c3Msgs = c3Turn "t1" "a.txt" 2 :: [c3Turn "t2" "b.txt" 3] from rfl,
        coalesceAux_cons, h1, h2, h3, coalesceAux_nil]
      simp
    intro heq
    rw [hc] at heq
    have := congrArg List.length heq
    simp [c3Msgs] at this

/-- C3 (amended): the coalescer makes a single pass in which (1) any list
whose `readPred`-runs all have length ≤ 1 — runs of length 1 and turns not
satisfying the predicate — passes through unchanged in order; (2) a maximal
run of length ≥ 2 of consecutive turns satisfying the code's read predicate
(assistant turn with some `Read` invocation part whose first part carries a
non-error result — *not* necessarily single-invocation) is replaced by
exactly one synthetic turn; and (3) the synthetic turn takes its identity and
timestamp from the first turn of the run, and consists of a single synthetic
invocation named `ReadCoalesced` (no hyphen) carrying the array of the
original invocations' inputs, with a synthetic successful result stating the
count merged. -/
theorem coalesceReadMessages_spec :
    (∀ l : List ChatMessage, NoAdjacentReads l → coalesceReadMessages l = l) ∧
    (∀ (k : Nat) (a run b : List ChatMessage),
      2 ≤ run.length →
      (∀ m ∈ run, readPred m = true) →
      (∀ x, a.getLast? = some x → readPred x = false) →
      (∀ y, b.head? = some y → readPred y = false) →
      ∃ fresh, coalesceAux k (a ++ run ++ b) =
        coalesceAux k a ++ createCoalescedReadMessage fresh run ::
          coalesceAux (fresh + 1) b) ∧
    (∀ (fresh : Nat) (m0 : ChatMessage) (batch : List ChatMessage),
      batch.head? = some m0 →
      createCoalescedReadMessage fresh batch =
        ⟨.assistant,
          [⟨.toolUse ("coalesced_" ++ toString fresh) "ReadCoalesced"
              (.inputList (fileReadsOf batch)),
            some ⟨"coalesced_" ++ toString fresh,
              "Successfully read " ++ toString batch.length ++ " files", false⟩⟩],
          m0.timestamp, m0.id, fresh⟩) := by
  refine ⟨fun l h => coalesceAux_of_chain 0 l h,
    fun k a run b h2 hrun ha hb =>
      coalesceAux_run_collapse a.length a k run b (Nat.le_refl _) h2 hrun ha hb,
    fun fresh m0 batch hh => ?_⟩
  cases batch with
  | nil => simp at hh
  | cons b0 bt =>
    have hb0 : b0 = m0 := by simpa using hh
    subst hb0
    rfl

/-- C3 witness: the spec applied to a singleton history (pass-through), to
the concrete two-turn run `c3Msgs` (collapse to one synthetic turn), and to a
concrete batch (synthetic shape). -/
theorem coalesceReadMessages_spec_witness :
    coalesceReadMessages [c3Turn "t1" "a.txt" 2] = [c3Turn "t1" "a.txt" 2] ∧
    (coalesceReadMessages c3Msgs).length = 1 ∧
    (createCoalescedReadMessage 4 c3Msgs).id = (c3Turn "t1" "a.txt" 2).id := by
  refine ⟨coalesceReadMessages_spec.1 _ (by simp [NoAdjacentReads]), ?_, ?_⟩
  · obtain ⟨fresh, hf⟩ := coalesceReadMessages_spec.2.1 0 [] c3Msgs []
      (by decide) (by decide) (by simp) (by simp)
    simp only [List.nil_append, List.append_nil, coalesceAux_nil] at hf
    rw [coalesceReadMessages, hf]
    rfl
  · rw [coalesceReadMessages_spec.2.2 4 (c3Turn "t1" "a.txt" 2) c3Msgs rfl]

/-- If no element of the list yields a hit, the newest-to-oldest scan yields
nothing. -/
theorem findLastIdx_eq_none (sel : ChatMessage → Option Nat) :
    ∀ l : List ChatMessage,
      (∀ (i : Nat) (m : ChatMessage), l[i]? = some m → sel m = none) →
      findLastIdx sel l = none := by
  intro l
  induction l with
  | nil => intro _; rfl
  | cons m rest ih =>
    intro h
    have hrest : findLastIdx sel rest = none :=
      ih fun i mm hm => h (i + 1) mm (by simpa using hm)
    have hm : sel m = none := h 0 m (by simp)
    simp [findLastIdx, hrest, hm]

/-- If position `i` yields hit `j` and every newer position yields nothing,
the newest-to-oldest scan returns `(i, j)`. -/
theorem findLastIdx_eq_some (sel : ChatMessage → Option Nat) :
    ∀ (l : List ChatMessage) (i j : Nat) (m : ChatMessage),
      l[i]? = some m → sel m = some j →
      (∀ i' m', i < i' → l[i']? = some m' → sel m' = none) →
      findLastIdx sel l = some (i, j) := by
  intro l
  induction l with
  | nil =>
    intro i j m hm
    simp at hm
  | cons x rest ih =>
    intro i j m hm hsel hmax
    cases i with
    | zero =>
      have hx : x = m := by simpa using hm
      subst hx
      have hrest : findLastIdx sel rest = none :=
        findLastIdx_eq_none sel rest
          (fun i mm hmm => hmax (i + 1) mm (by omega) (by simpa using hmm))
      simp [findLastIdx, hrest, hsel]
    | succ i0 =>
      have hrest : findLastIdx sel rest = some (i0, j) :=
        ih i0 j m (by simpa using hm) hsel
          (fun i' m' hlt hm' => hmax (i' + 1) m' (by omega) (by simpa using hm'))
      simp [findLastIdx, hrest]

/-- `scanEmptySlot` yields `j` exactly on assistant turns whose first
invocation part with the sought id sits at `j` with an empty slot. -/
theorem scanEmptySlot_eq_some_iff (toolUseId : String) (m : ChatMessage) (j : Nat) :
    scanEmptySlot toolUseId m = some j ↔
      (m.type = .assistant ∧ ∃ p, firstToolUseMatch toolUseId m.content = some (j, p) ∧
        p.toolResult = none) := by
  unfold scanEmptySlot
  by_cases ht : m.type = .assistant
  · simp only [if_pos ht, ht, true_and]
    cases hf : firstToolUseMatch toolUseId m.content with
    | none => simp
    | some r =>
      obtain ⟨j0, p0⟩ := r
      by_cases hr : p0.toolResult = none
      · simp [hr]
        constructor
        · rintro rfl
          exact ⟨p0, ⟨rfl, rfl⟩, hr⟩
        · rintro ⟨p, ⟨h1, h2⟩, hp⟩
          simp [h1]
      · simp [hr]
  · simp [if_neg ht, ht]

/-- `scanAnyMatch` yields `j` exactly on assistant turns whose first
invocation part with the sought id sits at `j`. -/
theorem scanAnyMatch_eq_some_iff (toolUseId : String) (m : ChatMessage) (j : Nat) :
    scanAnyMatch toolUseId m = some j ↔
      (m.type = .assistant ∧ ∃ p, firstToolUseMatch toolUseId m.content = some (j, p)) := by
  unfold scanAnyMatch
  by_cases ht : m.type = .assistant
  · rw [if_pos ht]
    simp only [ht, true_and]
    cases hf : firstToolUseMatch toolUseId m.content with
    | none => simp
    | some r =>
      obtain ⟨j0, p0⟩ := r
      simp only [Option.map_some', Option.some.injEq]
      constructor
      · rintro rfl
        exact ⟨p0, rfl⟩
      · rintro ⟨p, hp⟩
        simp only [Prod.mk.injEq] at hp
        simp [hp.1]
  · simp [if_neg ht, ht]

/-- Point lookup through `updateNth`: only the updated position changes. -/
theorem updateNth_getElem? (f : α → α) :
    ∀ (l : List α) (n k : Nat),
      (updateNth f l n)[k]? = if n = k then (l[k]?).map f else l[k]? := by
  intro l
  induction l with
  | nil =>
    intro n k
    simp [updateNth]
  | cons x rest ih =>
    intro n k
    cases n with
    | zero =>
      cases k with
      | zero => simp [updateNth]
      | succ k0 => simp [updateNth]
    | succ n0 =>
      cases k with
      | zero => simp [updateNth]
      | succ k0 => simpa [updateNth] using ih n0 k0

/-- A successful newest-to-oldest scan found its hit at the reported
position. -/
theorem findLastIdx_hit (sel : ChatMessage → Option Nat) :
    ∀ (l : List ChatMessage) (i j : Nat), findLastIdx sel l = some (i, j) →
      ∃ m, l[i]? = some m ∧ sel m = some j := by
  intro l
  induction l with
  | nil =>
    intro i j h
    simp [findLastIdx] at h
  | cons x rest ih =>
    intro i j h
    rw [findLastIdx] at h
    cases hr : findLastIdx sel rest with
    | some r =>
      obtain ⟨i0, j0⟩ := r
      rw [hr] at h
      obtain ⟨hi, hj⟩ : i0 + 1 = i ∧ j0 = j := by simpa using h
      subst hi
      subst hj
      obtain ⟨m, hm, hsel⟩ := ih i0 j0 hr
      exact ⟨m, by simpa using hm, hsel⟩
    | none =>
      rw [hr] at h
      cases hs : sel x with
      | some j0 =>
        rw [hs] at h
        obtain ⟨hi, hj⟩ : 0 = i ∧ j0 = j := by simpa using h
        subst hi
        subst hj
        exact ⟨x, by simp, hs⟩
      | none =>
        rw [hs] at h
        cases h

/-- C1 counterexample: in a turn holding two invocation parts with the same
id `X` — the first already answered, the second still empty — the claim's
rule targets the empty-slotted second part (part index 1), but the code
breaks out of the turn at the first matching part, finds no empty slot
anywhere, and falls back to overwriting the first matching part (part
index 0), leaving the empty-slotted part untouched. -/
theorem tool_result_attach_counterexample :
    claimFindTarget c1Msgs "X" = some (0, 1) ∧
    findMostRecentToolUse c1Msgs "X" = some (0, 0) ∧
    ((0, 0) : Nat × Nat) ≠ ((0, 1) : Nat × Nat) ∧
    (linkToolResults c1Msgs [.toolResult resX1] [] []).1 =
      [⟨.assistant,
        [⟨.toolUse "X" "Bash" (.raw "cmd1"), some resX1⟩,
         ⟨.toolUse "X" "Bash" (.raw "cmd2"), none⟩], 10, "m1", 1⟩] := by
  decide

/-- C1 (amended): scanning turns newest-to-oldest and considering, within
each assistant turn, only the **first** invocation part matching the id
(later duplicates in the same turn are never examined): (A) the result
attaches to the first matching part of the newest assistant turn whose first
matching part still has an empty slot, if such a turn exists; (B) only when
every assistant turn's first matching part already carries a result does it
overwrite the first matching part of the newest assistant turn containing a
matching part; (C) attachment mutates exactly the located part — every other
turn and every other part is unchanged. -/
theorem findMostRecentToolUse_spec (messages : List ChatMessage)
    (toolUseId : String) (i j : Nat) :
    ((EmptyTargetAt messages toolUseId i j ∧
        ∀ i' j', i < i' → ¬ EmptyTargetAt messages toolUseId i' j') →
      findMostRecentToolUse messages toolUseId = some (i, j)) ∧
    (((∀ i' j', ¬ EmptyTargetAt messages toolUseId i' j') ∧
        AnyTargetAt messages toolUseId i j ∧
        ∀ i' j', i < i' → ¬ AnyTargetAt messages toolUseId i' j') →
      findMostRecentToolUse messages toolUseId = some (i, j)) ∧
    (∀ tr : ToolResultBlock, tr.toolUseId = toolUseId →
      findMostRecentToolUse messages toolUseId = some (i, j) →
      ∃ target,
        (attachResultAt messages i j tr)[i]? = some target ∧
        linkToolResults messages [.toolResult tr] [] [] =
          (attachResultAt messages i j tr, [target],
            [⟨target.id, target.ref, toolUseId, tr⟩]) ∧
        (∀ k, k ≠ i → (attachResultAt messages i j tr)[k]? = messages[k]?) ∧
        (∀ m, messages[i]? = some m →
          target = { m with content := updateNth (fun p => p.setToolResult tr) m.content j } ∧
          (∀ l, l ≠ j →
            (updateNth (fun p => p.setToolResult tr) m.content j)[l]? = m.content[l]?) ∧
          (∀ p, m.content[j]? = some p →
            (updateNth (fun p => p.setToolResult tr) m.content j)[j]? =
              some (p.setToolResult tr)))) := by
  refine ⟨?_, ?_, ?_⟩
  · rintro ⟨⟨m, p, hm, htype, hfm, hslot⟩, hmax⟩
    have hsel : scanEmptySlot toolUseId m = some j :=
      (scanEmptySlot_eq_some_iff toolUseId m j).mpr ⟨htype, p, hfm, hslot⟩
    have hfound : findLastIdx (scanEmptySlot toolUseId) messages = some (i, j) := by
      refine findLastIdx_eq_some _ messages i j m hm hsel ?_
      intro i' m' hlt hm'
      cases hs : scanEmptySlot toolUseId m' with
      | none => rfl
      | some j' =>
        obtain ⟨ht', p', hfm', hslot'⟩ :=
          (scanEmptySlot_eq_some_iff toolUseId m' j').mp hs
        exact absurd ⟨m', p', hm', ht', hfm', hslot'⟩ (hmax i' j' hlt)
    rw [findMostRecentToolUse, hfound]
  · rintro ⟨hnone, ⟨m, p, hm, htype, hfm⟩, hmax⟩
    have hempty : findLastIdx (scanEmptySlot toolUseId) messages = none := by
      refine findLastIdx_eq_none _ messages ?_
      intro i' m' hm'
      cases hs : scanEmptySlot toolUseId m' with
      | none => rfl
      | some j' =>
        obtain ⟨ht', p', hfm', hslot'⟩ :=
          (scanEmptySlot_eq_some_iff toolUseId m' j').mp hs
        exact absurd ⟨m', p', hm', ht', hfm', hslot'⟩ (hnone i' j')
    have hsel : scanAnyMatch toolUseId m = some j :=
      (scanAnyMatch_eq_some_iff toolUseId m j).mpr ⟨htype, p, hfm⟩
    have hfound : findLastIdx (scanAnyMatch toolUseId) messages = some (i, j) := by
      refine findLastIdx_eq_some _ messages i j m hm hsel ?_
      intro i' m' hlt hm'
      cases hs : scanAnyMatch toolUseId m' with
      | none => rfl
      | some j' =>
        obtain ⟨ht', p', hfm'⟩ := (scanAnyMatch_eq_some_iff toolUseId m' j').mp hs
        exact absurd ⟨m', p', hm', ht', hfm'⟩ (hmax i' j' hlt)
    rw [findMostRecentToolUse, hempty, hfound]
  · intro tr htr hfind
    subst htr
    have hvalid : ∃ m, messages[i]? = some m := by
      rw [findMostRecentToolUse] at hfind
      cases he : findLastIdx (scanEmptySlot tr.toolUseId) messages with
      | some r =>
        rw [he] at hfind
        obtain rfl : r = (i, j) := by simpa using hfind
        obtain ⟨m, hm, _⟩ := findLastIdx_hit _ messages i j he
        exact ⟨m, hm⟩
      | none =>
        rw [he] at hfind
        obtain ⟨m, hm, _⟩ := findLastIdx_hit _ messages i j hfind
        exact ⟨m, hm⟩
    obtain ⟨m, hm⟩ := hvalid
    have hattach : (attachResultAt messages i j tr)[i]? =
        some { m with content := updateNth (fun p => p.setToolResult tr) m.content j } := by
      rw [attachResultAt, updateNth_getElem?, if_pos rfl, hm]
      rfl
    refine ⟨_, hattach, ?_, ?_, ?_⟩
    · simp only [linkToolResults, hfind, hattach]
      simp
    · intro k hk
      rw [attachResultAt, updateNth_getElem?, if_neg (fun h => hk h.symm)]
    · intro m' hm'
      obtain rfl : m = m' := by
        rw [hm] at hm'
        simpa using hm'
      refine ⟨rfl, ?_, ?_⟩
      · intro l hl
        rw [updateNth_getElem?, if_neg (fun h => hl h.symm)]
      · intro p hp
        rw [updateNth_getElem?, if_pos rfl, hp]
        rfl

/-- C1 witness: the amended rule applied to a one-turn history with a single
pending invocation part for id `X`, and the resulting attachment. -/
theorem findMostRecentToolUse_spec_witness :
    findMostRecentToolUse [w1Turn] "X" = some (0, 0) ∧
    (linkToolResults [w1Turn] [.toolResult resX0] [] []).1 =
      attachResultAt [w1Turn] 0 0 resX0 := by
  have hA := (findMostRecentToolUse_spec [w1Turn] "X" 0 0).1
  have hfind : findMostRecentToolUse [w1Turn] "X" = some (0, 0) := by
    refine hA ⟨⟨w1Turn, ⟨.toolUse "X" "Bash" (.raw "cmd"), none⟩, rfl, rfl, rfl, rfl⟩, ?_⟩
    intro i' j' hi' hET
    obtain ⟨m, p, hm, -⟩ := hET
    rw [List.getElem?_eq_none (by simpa using hi')] at hm
    cases hm
  refine ⟨hfind, ?_⟩
  obtain ⟨target, -, hlink, -⟩ :=
    (findMostRecentToolUse_spec [w1Turn] "X" 0 0).2.2 resX0 rfl hfind
  rw [hlink]

/-- `any` through `map`. -/
theorem any_map' (f : α → β) (l : List α) (p : β → Bool) :
    (l.map f).any p = l.any (fun a => p (f a)) := by
  induction l with
  | nil => rfl
  | cons x rest ih => simp [ih]

/-- One step of the `buildMessageMap` fold. -/
theorem buildMessageMap_step (acc : List (String × ChatMessage)) (m : ChatMessage) :
    (if acc.any (fun e => e.1 = m.id) then acc else acc ++ [(m.id, m)]) = acc ∨
    (¬ acc.any (fun e => e.1 = m.id) ∧
      (if acc.any (fun e => e.1 = m.id) then acc else acc ++ [(m.id, m)]) =
        acc ++ [(m.id, m)]) := by
  by_cases h : acc.any (fun e => e.1 = m.id)
  · exact Or.inl (if_pos h)
  · exact Or.inr ⟨h, if_neg h⟩

/-- The fold underlying `buildMessageMap`, on histories with pairwise
distinct ids: it appends one entry per turn, in order. -/
theorem buildMessageMap_go_nodup :
    ∀ (l : List ChatMessage) (acc : List (String × ChatMessage)),
      (l.map (·.id)).Nodup →
      (∀ m ∈ l, ∀ e ∈ acc, e.1 ≠ m.id) →
      List.foldl
        (fun acc m => if acc.any (fun e => e.1 = m.id) then acc else acc ++ [(m.id, m)])
        acc l = acc ++ l.map (fun m => (m.id, m)) := by
  intro l
  induction l with
  | nil =>
    intro acc _ _
    simp
  | cons m rest ih =>
    intro acc hnodup hdisj
    have hany : ¬ acc.any (fun e => e.1 = m.id) := by
      intro h
      obtain ⟨e, he, heq⟩ := List.any_eq_true.mp h
      exact hdisj m (by simp) e he (by simpa using heq)
    rw [List.foldl_cons, if_neg hany]
    rw [ih (acc ++ [(m.id, m)]) (by simpa using hnodup.of_cons) ?_]
    · simp
    · intro m' hm' e he
      rcases List.mem_append.mp he with hacc | hnew
      · exact hdisj m' (List.mem_cons_of_mem _ hm') e hacc
      · have : e = (m.id, m) := by simpa using hnew
        subst this
        have hnotin : m.id ∉ rest.map (·.id) := by
          have := hnodup
          rw [List.map_cons, List.nodup_cons] at this
          exact this.1
        intro hcon
        have hcon2 : m.id = m'.id := hcon
        exact hnotin (by
          rw [hcon2]
          exact List.mem_map_of_mem _ hm')

/-- `buildMessageMap` on a history with pairwise distinct ids. -/
theorem buildMessageMap_nodup (l : List ChatMessage)
    (h : (l.map (·.id)).Nodup) :
    buildMessageMap l = l.map (fun m => (m.id, m)) := by
  have := buildMessageMap_go_nodup l [] h (by simp)
  simpa [buildMessageMap] using this

/-- The fold underlying `buildMessageMap` preserves the invariant that keys
are pairwise distinct and each entry's key is its turn's id. -/
theorem buildMessageMap_go_inv :
    ∀ (l : List ChatMessage) (acc : List (String × ChatMessage)),
      ((acc.map (·.1)).Nodup ∧ ∀ e ∈ acc, e.1 = e.2.id) →
      (((List.foldl
          (fun acc m => if acc.any (fun e => e.1 = m.id) then acc else acc ++ [(m.id, m)])
          acc l).map (·.1)).Nodup ∧
        ∀ e ∈ List.foldl
          (fun acc m => if acc.any (fun e => e.1 = m.id) then acc else acc ++ [(m.id, m)])
          acc l, e.1 = e.2.id) := by
  intro l
  induction l with
  | nil =>
    intro acc h
    simpa using h
  | cons m rest ih =>
    intro acc ⟨hkeys, hkeyid⟩
    rw [List.foldl_cons]
    by_cases hany : acc.any (fun e => e.1 = m.id)
    · rw [if_pos hany]
      exact ih acc ⟨hkeys, hkeyid⟩
    · rw [if_neg hany]
      refine ih (acc ++ [(m.id, m)]) ⟨?_, ?_⟩
      · rw [List.map_append, List.nodup_append]
        refine ⟨hkeys, by simp, ?_⟩
        intro x hx
        simp only [List.map_cons, List.map_nil, List.mem_singleton]
        intro hxm
        subst hxm
        apply hany
        obtain ⟨e, he, heq⟩ := List.mem_map.mp hx
        exact List.any_eq_true.mpr ⟨e, he, by simpa using heq⟩
      · intro e he
        rcases List.mem_append.mp he with hacc | hnew
        · exact hkeyid e hacc
        · have : e = (m.id, m) := by simpa using hnew
          subst this
          rfl

/-- `buildMessageMap` produces pairwise-distinct keys, each the id of its
turn. -/
theorem buildMessageMap_inv (l : List ChatMessage) :
    ((buildMessageMap l).map (·.1)).Nodup ∧
      ∀ e ∈ buildMessageMap l, e.1 = e.2.id :=
  buildMessageMap_go_inv l [] (by simp)

/-- On an association list with distinct keys, lookup of a member's key
returns that member's value. -/
theorem assocFind_of_mem :
    ∀ (entries : List (String × ChatMessage)),
      ((entries.map (·.1)).Nodup) →
      ∀ e ∈ entries, assocFind entries e.1 = some e.2 := by
  intro entries
  induction entries with
  | nil =>
    intro _ e he
    simp at he
  | cons x rest ih =>
    intro hnodup e he
    rcases List.mem_cons.mp he with hx | hrest
    · subst hx
      simp [assocFind, List.find?_cons]
    · have hxe : ¬ (x.1 = e.1) := by
        intro hcon
        have hx1 : x.1 ∉ rest.map (·.1) := by
          rw [List.map_cons, List.nodup_cons] at hnodup
          exact hnodup.1
        exact hx1 (by
          rw [hcon]
          exact List.mem_map_of_mem _ hrest)
      have := ih (by
        rw [List.map_cons, List.nodup_cons] at hnodup
        exact hnodup.2) e hrest
      simpa [assocFind, List.find?_cons, hxe] using this

/-- Under distinct ids, `any` over a matching-id conjunction agrees with the
first-match lookup. -/
theorem any_eq_find?_matching :
    ∀ (prev : List ChatMessage) (mid : String) (mref : Nat),
      (prev.map (·.id)).Nodup →
      prev.any (fun p => p.id = mid && decide (p.ref ≠ mref)) =
        (match prev.find? (fun p => p.id = mid) with
          | some p0 => decide (p0.ref ≠ mref)
          | none => false) := by
  intro prev
  induction prev with
  | nil =>
    intro mid mref _
    rfl
  | cons q rest ih =>
    intro mid mref hnodup
    by_cases hq : q.id = mid
    · have hrest : ∀ p ∈ rest, ¬ (p.id = mid) := by
        intro p hp hcon
        have hq1 : q.id ∉ rest.map (·.id) := by
          rw [List.map_cons, List.nodup_cons] at hnodup
          exact hnodup.1
        exact hq1 (by
          rw [hq, ← hcon]
          exact List.mem_map_of_mem _ hp)
      have hany : rest.any (fun p => p.id = mid && decide (p.ref ≠ mref)) = false := by
        rw [List.any_eq_false]
        intro p hp
        simp [hrest p hp]
      rw [List.any_cons, List.find?_cons_of_pos _ (by simpa using hq), hany]
      simp [hq]
    · rw [List.any_cons, List.find?_cons_of_neg _ (by simpa using hq)]
      rw [ih mid mref (by
        rw [List.map_cons, List.nodup_cons] at hnodup
        exact hnodup.2)]
      simp [hq]

/-- `assocFind` over the id-keyed entry list is first-match lookup by id. -/
theorem assocFind_map_pair (prev : List ChatMessage) (mid : String) :
    assocFind (prev.map (fun m => (m.id, m))) mid =
      prev.find? (fun p => p.id = mid) := by
  rw [assocFind, List.find?_map]
  cases h : prev.find? ((fun e => decide (e.1 = mid)) ∘ (fun m => (m.id, m))) with
  | none =>
    have h2 : prev.find? (fun p => decide (p.id = mid)) = none := h
    simp [h, h2]
  | some p0 =>
    have h2 : prev.find? (fun p => decide (p.id = mid)) = some p0 := h
    simp [h, h2]

/-- C2: given snapshots with pairwise-distinct turn ids, the differ returns
exactly the claim's three sets — added: next's turns whose id is absent from
previous, in next's order; removed: previous's ids absent from next;
updated: next's turns whose id is in the explicit-update set or which occur
in previous under the same id with a different object reference, once each —
moreover (for arbitrary snapshots) no id is reported as both added and
removed, and diffing a snapshot against itself with an empty explicit-update
set yields three empty sets. -/
theorem diffMessages_spec :
    (∀ (previous next explicitlyUpdated : List ChatMessage),
      (next.map (·.id)).Nodup → (previous.map (·.id)).Nodup →
      (diffMessages previous next explicitlyUpdated).added =
        next.filter (fun m => !previous.any (fun p => p.id = m.id)) ∧
      (diffMessages previous next explicitlyUpdated).removed =
        (previous.filter (fun p => !next.any (fun n => n.id = p.id))).map (·.id) ∧
      (diffMessages previous next explicitlyUpdated).updated =
        next.filter (fun m =>
          explicitlyUpdated.any (fun u => u.id = m.id) ||
          previous.any (fun p => p.id = m.id && decide (p.ref ≠ m.ref)))) ∧
    (∀ previous next explicitlyUpdated,
      ∀ m ∈ (diffMessages previous next explicitlyUpdated).added,
        m.id ∉ (diffMessages previous next explicitlyUpdated).removed) ∧
    (∀ l : List ChatMessage, diffMessages l l [] = ⟨[], [], []⟩) := by
  refine ⟨?_, ?_, ?_⟩
  · intro previous next explicitlyUpdated hnext hprev
    unfold diffMessages
    rw [buildMessageMap_nodup next hnext, buildMessageMap_nodup previous hprev]
    dsimp only
    refine ⟨?_, ?_, ?_⟩
    · have hpt : ∀ m ∈ next,
          (((fun e : String × ChatMessage =>
            !(previous.map (fun m => (m.id, m))).any (fun p => p.1 = e.1)) ∘
            (fun m : ChatMessage => (m.id, m))) m) =
          (!previous.any (fun p => p.id = m.id)) := by
        intro m _
        simp [Function.comp, any_map']
      rw [List.filter_map, List.filter_congr hpt, List.map_map]
      have : ((fun x : String × ChatMessage => x.2) ∘ fun m : ChatMessage => (m.id, m)) =
          (fun m : ChatMessage => m) := rfl
      rw [this, List.map_id']
    · have hpt : ∀ p ∈ previous,
          (((fun e : String × ChatMessage =>
            !(next.map (fun m => (m.id, m))).any (fun n => n.1 = e.1)) ∘
            (fun m : ChatMessage => (m.id, m))) p) =
          (!next.any (fun n => n.id = p.id)) := by
        intro p _
        simp [Function.comp, any_map']
      rw [List.filter_map, List.filter_congr hpt, List.map_map]
      have : ((fun x : String × ChatMessage => x.1) ∘ fun m : ChatMessage => (m.id, m)) =
          (fun m : ChatMessage => m.id) := rfl
      rw [this]
    · have hpt : ∀ m ∈ next,
          (((fun e : String × ChatMessage =>
            (explicitlyUpdated.map (fun x => x.id)).any (fun x => x = e.1) ||
              match assocFind (previous.map (fun m => (m.id, m))) e.1 with
              | some previousMessage => decide (previousMessage.ref ≠ e.2.ref)
              | none => false) ∘
            (fun m : ChatMessage => (m.id, m))) m) =
          (explicitlyUpdated.any (fun u => u.id = m.id) ||
            previous.any (fun p => p.id = m.id && decide (p.ref ≠ m.ref))) := by
        intro m _
        simp only [Function.comp_apply]
        rw [assocFind_map_pair, ← any_eq_find?_matching previous m.id m.ref hprev,
          any_map']
      rw [List.filter_map, List.filter_congr hpt, List.map_map]
      have : ((fun x : String × ChatMessage => x.2) ∘ fun m : ChatMessage => (m.id, m)) =
          (fun m : ChatMessage => m) := rfl
      rw [this, List.map_id']
  · intro previous next explicitlyUpdated m hm hrem
    unfold diffMessages at hm hrem
    dsimp only at hm hrem
    simp only [List.mem_map] at hm hrem
    obtain ⟨e, he, rfl⟩ := hm
    obtain ⟨r, hr, hrid⟩ := hrem
    have heF := List.mem_filter.mp he
    have hrF := List.mem_filter.mp hr
    have hkey : e.1 = e.2.id := (buildMessageMap_inv next).2 e heF.1
    have hany : (buildMessageMap previous).any (fun p => p.1 = e.1) = true := by
      refine List.any_eq_true.mpr ⟨r, hrF.1, ?_⟩
      have : r.1 = e.2.id := hrid
      simp [this, hkey]
    rw [hany] at heF
    simp at heF
  · intro l
    unfold diffMessages
    dsimp only
    have hinv := buildMessageMap_inv l
    have hadded : (buildMessageMap l).filter
        (fun e => !(buildMessageMap l).any (fun p => p.1 = e.1)) = [] := by
      rw [List.filter_eq_nil_iff]
      intro e he
      simp only [Bool.not_eq_true']
      intro hcon
      rw [List.any_eq_false] at hcon
      exact hcon e he (by simp)
    have hupdated : (buildMessageMap l).filter
        (fun e => (List.map (fun m => m.id) ([] : List ChatMessage)).any (fun x => x = e.1) ||
          match assocFind (buildMessageMap l) e.1 with
          | some previousMessage => decide (previousMessage.ref ≠ e.2.ref)
          | none => false) = [] := by
      rw [List.filter_eq_nil_iff]
      intro e he
      rw [assocFind_of_mem (buildMessageMap l) hinv.1 e he]
      simp
    rw [hadded, hupdated]
    simp

/-- C2 witness: the differ spec applied to concrete snapshots with distinct
ids, and the self-diff instance. -/
theorem diffMessages_spec_witness :
    ((diffMessages diffPrevW diffNextW [turnW "a" 4]).added =
        diffNextW.filter (fun m => !diffPrevW.any (fun p => p.id = m.id)) ∧
      (diffMessages diffPrevW diffNextW [turnW "a" 4]).removed =
        (diffPrevW.filter (fun p => !diffNextW.any (fun n => n.id = p.id))).map (·.id) ∧
      (diffMessages diffPrevW diffNextW [turnW "a" 4]).updated =
        diffNextW.filter (fun m =>
          [turnW "a" 4].any (fun u => u.id = m.id) ||
          diffPrevW.any (fun p => p.id = m.id && decide (p.ref ≠ m.ref)))) ∧
    diffMessages diffPrevW diffPrevW [] = ⟨[], [], []⟩ :=
  ⟨diffMessages_spec.1 diffPrevW diffNextW [turnW "a" 4] (by decide) (by decide),
    diffMessages_spec.2.2 diffPrevW⟩

/-- Replacing the todo list never touches the usage aggregate. -/
theorem updateTodosState_usage (s : SessionState) (todos : List TodoItem) :
    (updateTodosState s todos).1.usageData = s.usageData := by
  unfold updateTodosState
  dsimp only
  split
  · rfl
  · split <;> rfl

/-- Replacing the tool inventory never touches the usage aggregate. -/
theorem updateToolsState_usage (s : SessionState) (tools : List String) :
    (updateToolsState s tools).1.usageData = s.usageData := by
  unfold updateToolsState
  dsimp only
  split
  · rfl
  · split <;> rfl

/-- A single todo-extraction step never touches the usage aggregate. -/
theorem todoStep_usage (s : SessionState) (b : ContentBlock) :
    (todoStep s b).1.usageData = s.usageData := by
  unfold todoStep
  split
  · split
    · rw [updateTodosState_usage]
    · rfl
  · rfl

/-- The TodoWrite extraction loop never touches the usage aggregate. -/
theorem processTodoBlocks_usage :
    ∀ (blocks : List ContentBlock) (s : SessionState),
      (processTodoBlocks s blocks).1.usageData = s.usageData := by
  intro blocks
  induction blocks with
  | nil =>
    intro s
    rfl
  | cons b rest ih =>
    intro s
    rw [processTodoBlocks]
    show (processTodoBlocks (todoStep s b).1 rest).1.usageData = _
    rw [ih, todoStep_usage]

/-- Processing an assistant fragment leaves the usage aggregate unchanged
unless the fragment carries a usage report, in which case the token total is
replaced by the report's sum and cost/context carried over. -/
theorem handleAssistantMessage_usage (s : SessionState) (content : SDKContent)
    (usage : Option UsageReport) :
    (handleAssistantMessage s content usage).1.usageData =
      (match usage with
        | some u =>
          ⟨u.inputTokens + u.cacheCreationInputTokens.getD 0 +
              u.cacheReadInputTokens.getD 0 + u.outputTokens,
            s.usageData.totalCost, s.usageData.contextWindow⟩
        | none => s.usageData) := by
  unfold handleAssistantMessage
  cases content with
  | ofString str =>
    cases usage with
    | some u => rfl
    | none => rfl
  | ofBlocks blocks =>
    cases usage with
    | some u =>
      show (updateUsage (processTodoBlocks s blocks).1 u).1.usageData = _
      unfold updateUsage setUsageData
      rw [processTodoBlocks_usage]
    | none =>
      show (processTodoBlocks s blocks).1.usageData = _
      rw [processTodoBlocks_usage]

/-- Processing a system fragment leaves the usage aggregate unchanged. -/
theorem processMessage_system_usage (s : SessionState) (uuid : Option String)
    (ts : Option Int) (sid subtype : String) (model : Option String)
    (tools : Option (List String)) (permissionMode : Option String) :
    (processMessage s (.system uuid ts sid subtype model tools permissionMode)).1.usageData =
      s.usageData := by
  unfold processMessage
  dsimp only
  by_cases hsub : subtype = "init"
  · rw [if_pos hsub]
    cases model <;> cases tools <;> cases permissionMode <;>
      simp [updateToolsState_usage]
  · rw [if_neg hsub]

/-- C5: an assistant usage report replaces the token total with the sum of
the report's input, cache-creation, cache-read, and output tokens, while the
total cost and context window are carried over unchanged; conversely, no
fragment other than a terminal result fragment ever changes cost or context
window, and processing a result fragment leaves the token total unchanged. -/
theorem usage_tracking_spec (s : SessionState) :
    (∀ (uuid : Option String) (ts : Option Int) (sid : String)
        (content : SDKContent) (u : UsageReport),
      (processMessage s (.assistant uuid ts sid content (some u))).1.usageData =
        ⟨u.inputTokens + u.cacheCreationInputTokens.getD 0 +
            u.cacheReadInputTokens.getD 0 + u.outputTokens,
          s.usageData.totalCost, s.usageData.contextWindow⟩) ∧
    (∀ m : SDKMessage, m.chatType ≠ .result →
      (processMessage s m).1.usageData.totalCost = s.usageData.totalCost ∧
      (processMessage s m).1.usageData.contextWindow = s.usageData.contextWindow) ∧
    (∀ (uuid : Option String) (ts : Option Int) (sid : String)
        (cost : Option Int) (mu : List (String × Nat)),
      (processMessage s (.result uuid ts sid cost mu)).1.usageData.totalTokens =
        s.usageData.totalTokens) := by
  refine ⟨?_, ?_, ?_⟩
  · intro uuid ts sid content u
    show (handleAssistantMessage s content (some u)).1.usageData = _
    rw [handleAssistantMessage_usage]
  · intro m hm
    cases m with
    | assistant uuid ts sid content usage =>
      cases usage with
      | some u =>
        constructor
        · show (handleAssistantMessage s content (some u)).1.usageData.totalCost = _
          rw [handleAssistantMessage_usage]
        · show (handleAssistantMessage s content (some u)).1.usageData.contextWindow = _
          rw [handleAssistantMessage_usage]
      | none =>
        constructor
        · show (handleAssistantMessage s content none).1.usageData.totalCost = _
          rw [handleAssistantMessage_usage]
        · show (handleAssistantMessage s content none).1.usageData.contextWindow = _
          rw [handleAssistantMessage_usage]
    | user uuid ts sid content => exact ⟨rfl, rfl⟩
    | system uuid ts sid subtype model tools permissionMode =>
      rw [processMessage_system_usage]
      exact ⟨rfl, rfl⟩
    | result uuid ts sid cost mu => exact absurd rfl hm
    | streamEvent uuid ts sid => exact ⟨rfl, rfl⟩
  · intro uuid ts sid cost mu
    cases cost with
    | some c => rfl
    | none => rfl

/-- C5 witness: the usage spec applied to an assistant usage report (token
total replaced by 10+30+40+20, cost and window kept), a user fragment (cost
kept), and a result fragment (tokens kept). -/
theorem usage_tracking_spec_witness :
    (processMessage usageStateW sdkAssistantW).1.usageData = ⟨100, 11, 13⟩ ∧
    (processMessage usageStateW sdkUserW).1.usageData.totalCost = 11 ∧
    (processMessage usageStateW
      (.result none none "s" (some 99) [])).1.usageData.totalTokens = 7 := by
  refine ⟨?_, ?_, ?_⟩
  · have h := (usage_tracking_spec usageStateW).1 (some "u1") (some 5) "sess"
      (.ofBlocks []) ⟨10, 20, some 30, some 40⟩
    rw [show sdkAssistantW = SDKMessage.assistant (some "u1") (some 5) "sess"
      (.ofBlocks []) (some ⟨10, 20, some 30, some 40⟩) from rfl, h]
    rfl
  · have h := (usage_tracking_spec usageStateW).2.1 sdkUserW (by decide)
    rw [h.1]
    rfl
  · have h := (usage_tracking_spec usageStateW).2.2 none none "s" (some 99) []
    rw [h]
    rfl

/-- C9: `subscribe` rejects a non-callable subscriber synchronously without
registering anything or invoking anyone; for a callable subscriber it
synchronously delivers exactly one session-info notification to the new
callback, and then either returns the subscription id with the subscriber
registered — the returned unsubscribe handle removing exactly that
subscription — or, if the initial delivery throws, rolls the registration
back (subscriber set as before the call) and re-raises. -/
theorem subscribe_spec (s : SessionState)
    (registry : List (String × SubscriberCallback))
    (callback : Option SubscriberCallback) (fresh : String) :
    (callback = none →
      subscribe s registry callback fresh =
        ⟨.error "Subscription callback must be a function", registry, []⟩) ∧
    (∀ cb, callback = some cb →
      (subscribe s registry callback fresh).invocations = [emitSessionInfo s]) ∧
    (∀ cb, callback = some cb → ¬ registry.any (fun e => e.1 = fresh) →
      (cb (emitSessionInfo s) = true →
        subscribe s registry callback fresh =
          ⟨.ok fresh, registry ++ [(fresh, cb)], [emitSessionInfo s]⟩ ∧
        unsubscribe (registry ++ [(fresh, cb)]) fresh = registry) ∧
      (cb (emitSessionInfo s) = false →
        subscribe s registry callback fresh =
          ⟨.error "Subscription callback failed", registry, [emitSessionInfo s]⟩)) := by
  have hkeep : ¬ registry.any (fun e => e.1 = fresh) →
      registry.filter (fun e => e.1 ≠ fresh) = registry := by
    intro hany
    rw [List.filter_eq_self]
    intro e he
    simp only [ne_eq, decide_not, Bool.not_eq_eq_eq_not, Bool.not_true,
      decide_eq_false_iff_not]
    intro hcon
    exact hany (List.any_eq_true.mpr ⟨e, he, by simpa using hcon⟩)
  refine ⟨?_, ?_, ?_⟩
  · rintro rfl
    rfl
  · rintro cb rfl
    unfold subscribe
    dsimp only
    cases hcb : cb (emitSessionInfo s) <;> simp [hcb]
  · rintro cb rfl hany
    have hset : registrySet registry fresh cb = registry ++ [(fresh, cb)] := by
      unfold registrySet
      rw [if_neg hany]
    constructor
    · intro hcb
      unfold subscribe
      dsimp only
      rw [hset, hcb]
      refine ⟨rfl, ?_⟩
      unfold unsubscribe registryDelete
      rw [List.filter_append]
      rw [hkeep hany]
      simp
    · intro hcb
      unfold subscribe
      dsimp only
      rw [hset, hcb]
      unfold registryDelete
      rw [List.filter_append, hkeep hany]
      simp

/-- C9 witness: subscribing with a well-behaved callback on an empty
registry registers it, delivers one session-info notification, and the
unsubscribe handle removes exactly that subscription; a callback throwing on
its initial delivery leaves the registry as before. -/
theorem subscribe_spec_witness :
    (subscribe idleState [] (some subOkW) "sub1" =
      ⟨.ok "sub1", [("sub1", subOkW)], [emitSessionInfo idleState]⟩ ∧
     unsubscribe [("sub1", subOkW)] "sub1" = []) ∧
    subscribe idleState [] (some subFailW) "sub1" =
      ⟨.error "Subscription callback failed", [], [emitSessionInfo idleState]⟩ := by
  constructor
  · have h := ((subscribe_spec idleState [] (some subOkW) "sub1").2.2 subOkW rfl
      (by simp)).1 rfl
    exact ⟨h.1, by simpa using h.2⟩
  · exact ((subscribe_spec idleState [] (some subFailW) "sub1").2.2 subFailW rfl
      (by simp)).2 rfl

/-- Replacing the todo list never changes the loading flag. -/
theorem updateTodosState_isLoading (s : SessionState) (todos : List TodoItem) :
    (updateTodosState s todos).1.isLoading = s.isLoading := by
  unfold updateTodosState
  dsimp only
  split
  · rfl
  · split <;> rfl

/-- Replacing the tool inventory never changes the loading flag. -/
theorem updateToolsState_isLoading (s : SessionState) (tools : List String) :
    (updateToolsState s tools).1.isLoading = s.isLoading := by
  unfold updateToolsState
  dsimp only
  split
  · rfl
  · split <;> rfl

/-- While loading, a todo-list change emits nothing (it latches instead). -/
theorem updateTodosState_load (s : SessionState) (todos : List TodoItem)
    (h : s.isLoading = true) : (updateTodosState s todos).2 = [] := by
  unfold updateTodosState
  dsimp only
  split
  · rfl
  · rfl

/-- While loading, a tool-inventory change emits nothing. -/
theorem updateToolsState_load (s : SessionState) (tools : List String)
    (h : s.isLoading = true) : (updateToolsState s tools).2 = [] := by
  unfold updateToolsState
  dsimp only
  split
  · rfl
  · rfl

/-- A single todo-extraction step keeps the loading flag and, while
loading, emits nothing. -/
theorem todoStep_load (s : SessionState) (b : ContentBlock) :
    (todoStep s b).1.isLoading = s.isLoading ∧
    (s.isLoading = true → (todoStep s b).2 = []) := by
  unfold todoStep
  split
  · split
    · exact ⟨updateTodosState_isLoading _ _, fun h => updateTodosState_load _ _ h⟩
    · exact ⟨rfl, fun _ => rfl⟩
  · exact ⟨rfl, fun _ => rfl⟩

/-- The TodoWrite extraction loop keeps the loading flag and, while loading,
emits nothing. -/
theorem processTodoBlocks_load :
    ∀ (blocks : List ContentBlock) (s : SessionState), s.isLoading = true →
      (processTodoBlocks s blocks).1.isLoading = true ∧
      (processTodoBlocks s blocks).2 = [] := by
  intro blocks
  induction blocks with
  | nil =>
    intro s h
    exact ⟨h, rfl⟩
  | cons b rest ih =>
    intro s h
    rw [processTodoBlocks]
    have hstep : (todoStep s b).1.isLoading = true := by
      rw [(todoStep_load s b).1]
      exact h
    have hnext := ih (todoStep s b).1 hstep
    refine ⟨hnext.1, ?_⟩
    show (todoStep s b).2 ++ (processTodoBlocks (todoStep s b).1 rest).2 = []
    rw [(todoStep_load s b).2 h, hnext.2]
    rfl

/-- Processing one fragment keeps the loading flag and, while loading, emits
no `todos_updated` and no `tools_updated` notification. -/
theorem processMessage_load (s : SessionState) (m : SDKMessage)
    (h : s.isLoading = true) :
    (processMessage s m).1.isLoading = true ∧
    (processMessage s m).2.countP BroadcastMessage.isTodosUpdated = 0 ∧
    (processMessage s m).2.countP BroadcastMessage.isToolsUpdated = 0 := by
  cases m with
  | assistant uuid ts sid content usage =>
    show ((handleAssistantMessage s content usage).1.isLoading = true ∧ _)
    unfold handleAssistantMessage
    cases content with
    | ofString str =>
      cases usage with
      | some u => exact ⟨h, rfl, rfl⟩
      | none => exact ⟨h, rfl, rfl⟩
    | ofBlocks blocks =>
      have hpt := processTodoBlocks_load blocks s h
      cases usage with
      | some u =>
        refine ⟨hpt.1, ?_, ?_⟩
        · show List.countP BroadcastMessage.isTodosUpdated
            ((processTodoBlocks s blocks).2 ++
              (updateUsage (processTodoBlocks s blocks).1 u).2) = 0
          rw [List.countP_append, hpt.2]
          rfl
        · show List.countP BroadcastMessage.isToolsUpdated
            ((processTodoBlocks s blocks).2 ++
              (updateUsage (processTodoBlocks s blocks).1 u).2) = 0
          rw [List.countP_append, hpt.2]
          rfl
      | none =>
        refine ⟨hpt.1, ?_, ?_⟩
        · show List.countP BroadcastMessage.isTodosUpdated
            (processTodoBlocks s blocks).2 = 0
          rw [hpt.2]
          rfl
        · show List.countP BroadcastMessage.isToolsUpdated
            (processTodoBlocks s blocks).2 = 0
          rw [hpt.2]
          rfl
  | user uuid ts sid content => exact ⟨h, rfl, rfl⟩
  | system uuid ts sid subtype model tools permissionMode =>
    show ((processMessage s (.system uuid ts sid subtype model tools permissionMode)).1.isLoading = true ∧ _)
    unfold processMessage
    dsimp only
    by_cases hsub : subtype = "init"
    · rw [if_pos hsub]
      cases model <;> cases tools <;> cases permissionMode <;>
        simp [updateToolsState_isLoading, updateToolsState_load, h]
    · rw [if_neg hsub]
      exact ⟨h, rfl, rfl⟩
  | result uuid ts sid cost mu =>
    cases cost with
    | some c => exact ⟨h, rfl, rfl⟩
    | none => exact ⟨h, rfl, rfl⟩
  | streamEvent uuid ts sid => exact ⟨h, rfl, rfl⟩

/-- The historical-replay loop keeps the loading flag and, while loading,
emits no todo/tool notifications. -/
theorem renderAll_load :
    ∀ (msgs : List SDKMessage) (gen : Nat → FreshData) (k : Nat)
      (rendered : List ChatMessage) (s : SessionState), s.isLoading = true →
      (renderAll gen k rendered s msgs).1.isLoading = true ∧
      (renderAll gen k rendered s msgs).2.2.countP BroadcastMessage.isTodosUpdated = 0 ∧
      (renderAll gen k rendered s msgs).2.2.countP BroadcastMessage.isToolsUpdated = 0 := by
  intro msgs
  induction msgs with
  | nil =>
    intro gen k rendered s h
    exact ⟨h, rfl, rfl⟩
  | cons m rest ih =>
    intro gen k rendered s h
    have hpm := processMessage_load s m h
    have hnext := ih gen (k + 1)
      (appendRenderableMessage (gen k) rendered m).messages (processMessage s m).1 hpm.1
    rw [renderAll]
    dsimp only
    refine ⟨hnext.1, ?_, ?_⟩
    · rw [List.countP_append, hpm.2.1, hnext.2.1]
    · rw [List.countP_append, hpm.2.2, hnext.2.2]

/-- `setMessages` keeps the loading flag and, while loading, emits no
todo/tool notifications. -/
theorem setMessages_load (gen : Nat → FreshData) (s : SessionState)
    (msgs : List SDKMessage) (h : s.isLoading = true) :
    (setMessages gen s msgs).1.isLoading = true ∧
    (setMessages gen s msgs).2.countP BroadcastMessage.isTodosUpdated = 0 ∧
    (setMessages gen s msgs).2.countP BroadcastMessage.isToolsUpdated = 0 := by
  have hra := renderAll_load msgs gen 0 [] s h
  unfold setMessages
  dsimp only
  refine ⟨?_, ?_, ?_⟩
  · cases hts : extractLastMessageTimestamp msgs <;>
      cases hsm : (renderAll gen 0 [] s msgs).1.summary <;>
      first
        | exact hra.1
        | (cases hsum : extractSummaryFromMessages (renderAll gen 0 [] s msgs).2.1 <;>
            exact hra.1)
  · rw [List.countP_append]
    rw [hra.2.1]
    rfl
  · rw [List.countP_append]
    rw [hra.2.2]
    rfl

/-- The load body keeps the loading flag raised and emits no todo/tool
notifications. -/
theorem loadBody_load (gen : Nat → FreshData) (s : SessionState)
    (fetched : Except String (List SDKMessage)) (h : s.isLoading = true) :
    (loadBody gen s fetched).1.isLoading = true ∧
    (loadBody gen s fetched).2.countP BroadcastMessage.isTodosUpdated = 0 ∧
    (loadBody gen s fetched).2.countP BroadcastMessage.isToolsUpdated = 0 := by
  unfold loadBody
  cases fetched with
  | error e => exact ⟨h, rfl, rfl⟩
  | ok msgs =>
    dsimp only
    by_cases hemp : msgs.isEmpty
    · rw [if_pos hemp]
      set s1 : SessionState := { s with
        messages := []
        messageCount := 0
        summary := none
        lastModifiedTime := (gen 0).now } with hs1
      have h1 : s1.isLoading = true := h
      have ht1 := updateTodosState_load s1 [] h1
      have ht1L : (updateTodosState s1 []).1.isLoading = true := by
        rw [updateTodosState_isLoading]
        exact h1
      have ht2 := updateToolsState_load (updateTodosState s1 []).1 [] ht1L
      have ht2L : (updateToolsState (updateTodosState s1 []).1 []).1.isLoading = true := by
        rw [updateToolsState_isLoading]
        exact ht1L
      refine ⟨ht2L, ?_, ?_⟩ <;>
        · rw [ht1, ht2]
          rfl
    · rw [if_neg hemp]
      set s1 : SessionState := { s with summary := none } with hs1
      have h1 : s1.isLoading = true := h
      have ht1 := updateTodosState_load s1 [] h1
      have ht1L : (updateTodosState s1 []).1.isLoading = true := by
        rw [updateTodosState_isLoading]
        exact h1
      have ht2 := updateToolsState_load (updateTodosState s1 []).1 [] ht1L
      have ht2L : (updateToolsState (updateTodosState s1 []).1 []).1.isLoading = true := by
        rw [updateToolsState_isLoading]
        exact ht1L
      have hsm := setMessages_load gen
        (setUsageData (updateToolsState (updateTodosState s1 []).1 []).1 ⟨0, 0, 0⟩).1
        msgs ht2L
      refine ⟨hsm.1, ?_, ?_⟩
      · rw [ht1, ht2]
        show (([] : List BroadcastMessage) ++ [] ++ _ ++ _).countP _ = 0
        rw [List.nil_append, List.nil_append, List.countP_append, hsm.2.1]
        rfl
      · rw [ht1, ht2]
        show (([] : List BroadcastMessage) ++ [] ++ _ ++ _).countP _ = 0
        rw [List.nil_append, List.nil_append, List.countP_append, hsm.2.2]
        rfl

/-- The flush step emits exactly one notification per latched aggregate and
clears the latches. -/
theorem flush_counts (s : SessionState) :
    (flushPendingStateUpdates s).2.countP BroadcastMessage.isTodosUpdated =
      (if s.pendingTodosBroadcast then 1 else 0) ∧
    (flushPendingStateUpdates s).2.countP BroadcastMessage.isToolsUpdated =
      (if s.pendingToolsBroadcast then 1 else 0) ∧
    (flushPendingStateUpdates s).1.pendingTodosBroadcast = false ∧
    (flushPendingStateUpdates s).1.pendingToolsBroadcast = false ∧
    (flushPendingStateUpdates s).1.isLoading = s.isLoading := by
  unfold flushPendingStateUpdates
  dsimp only
  cases hpt : s.pendingTodosBroadcast <;> cases hpl : s.pendingToolsBroadcast <;>
    simp [hpt, hpl, List.countP_append, List.countP_cons,
      BroadcastMessage.isTodosUpdated, BroadcastMessage.isToolsUpdated]

/-- C6: during a bulk reload the body of `loadFromServer` — which replays
every historical fragment with the loading flag raised — emits no
`todos_updated` and no `tools_updated` notification; detected changes latch
the pending flags instead, and after the body completes (on success or
failure alike) the flush emits exactly one notification per latched
aggregate and clears the latches.  In particular, loading the concrete
history `c6History`, which contains three TodoWrite invocations, emits
exactly one `todos_updated` notification, after the load. -/
theorem load_suppression_spec (gen : Nat → FreshData) (s : SessionState)
    (target : String) (fetched : Except String (List SDKMessage)) :
    (loadFromServerModel gen s target fetched).2 =
      (loadBody gen (loadStart s target) fetched).2 ++
        (flushPendingStateUpdates
          { (loadBody gen (loadStart s target) fetched).1 with isLoading := false }).2 ∧
    (loadBody gen (loadStart s target) fetched).2.countP
        BroadcastMessage.isTodosUpdated = 0 ∧
    (loadBody gen (loadStart s target) fetched).2.countP
        BroadcastMessage.isToolsUpdated = 0 ∧
    (loadFromServerModel gen s target fetched).2.countP
        BroadcastMessage.isTodosUpdated =
      (if (loadBody gen (loadStart s target) fetched).1.pendingTodosBroadcast
        then 1 else 0) ∧
    (loadFromServerModel gen s target fetched).2.countP
        BroadcastMessage.isToolsUpdated =
      (if (loadBody gen (loadStart s target) fetched).1.pendingToolsBroadcast
        then 1 else 0) ∧
    (loadFromServerModel gen s target fetched).1.pendingTodosBroadcast = false ∧
    (loadFromServerModel gen s target fetched).1.pendingToolsBroadcast = false ∧
    (loadFromServerModel gen s target fetched).1.isLoading = false ∧
    (loadFromServerModel genDefault idleState "sess" (.ok c6History)).2.countP
      BroadcastMessage.isTodosUpdated = 1 := by
  have hdecomp : ∀ (gen' : Nat → FreshData) (s' : SessionState) (t' : String)
      (f' : Except String (List SDKMessage)),
      (loadFromServerModel gen' s' t' f').2 =
        (loadBody gen' (loadStart s' t') f').2 ++
          (flushPendingStateUpdates
            { (loadBody gen' (loadStart s' t') f').1 with isLoading := false }).2 :=
    fun _ _ _ _ => rfl
  have hstart : (loadStart s target).isLoading = true := rfl
  have hbody := loadBody_load gen (loadStart s target) fetched hstart
  have hfl := flush_counts
    { (loadBody gen (loadStart s target) fetched).1 with isLoading := false }
  have hcount : ∀ (gen' : Nat → FreshData) (s' : SessionState) (t' : String)
      (f' : Except String (List SDKMessage)),
      (loadFromServerModel gen' s' t' f').2.countP BroadcastMessage.isTodosUpdated =
        (if (loadBody gen' (loadStart s' t') f').1.pendingTodosBroadcast
          then 1 else 0) := by
    intro gen' s' t' f'
    rw [hdecomp, List.countP_append,
      (loadBody_load gen' (loadStart s' t') f' rfl).2.1,
      (flush_counts { (loadBody gen' (loadStart s' t') f').1 with
        isLoading := false }).1, Nat.zero_add]
  refine ⟨hdecomp gen s target fetched, hbody.2.1, hbody.2.2,
    hcount gen s target fetched, ?_, hfl.2.2.1, hfl.2.2.2.1, ?_, ?_⟩
  · rw [hdecomp, List.countP_append, hbody.2.2, hfl.2.1, Nat.zero_add]
  · rw [show (loadFromServerModel gen s target fetched).1 =
      (flushPendingStateUpdates
        { (loadBody gen (loadStart s target) fetched).1 with
          isLoading := false }).1 from rfl, hfl.2.2.2.2]
  · rw [hcount genDefault idleState "sess" (.ok c6History),
      show (loadBody genDefault (loadStart idleState "sess")
        (.ok c6History)).1.pendingTodosBroadcast = true by decide]
    rfl

/-- When no `tool_result` block of the fragment finds a target, the linking
loop leaves the history and both accumulators untouched. -/
theorem linkToolResults_no_match :
    ∀ (blocks : List ContentBlock) (messages : List ChatMessage)
      (updAcc : List ChatMessage) (trAcc : List ToolResultUpdate),
      (∀ tr : ToolResultBlock, ContentBlock.toolResult tr ∈ blocks →
        findMostRecentToolUse messages tr.toolUseId = none) →
      linkToolResults messages blocks updAcc trAcc = (messages, updAcc, trAcc) := by
  intro blocks
  induction blocks with
  | nil => intro messages updAcc trAcc _; rfl
  | cons b rest ih =>
    intro messages updAcc trAcc h
    have htail : ∀ tr : ToolResultBlock, ContentBlock.toolResult tr ∈ rest →
        findMostRecentToolUse messages tr.toolUseId = none :=
      fun tr htr => h tr (List.mem_cons_of_mem _ htr)
    cases b with
    | toolResult tr =>
      have hnone : findMostRecentToolUse messages tr.toolUseId = none :=
        h tr (List.mem_cons_self _ _)
      simp only [linkToolResults, hnone]
      exact ih messages updAcc trAcc htail
    | text t =>
      simp only [linkToolResults]
      exact ih messages updAcc trAcc htail
    | image mt d =>
      simp only [linkToolResults]
      exact ih messages updAcc trAcc htail
    | document mt d ti =>
      simp only [linkToolResults]
      exact ih messages updAcc trAcc htail
    | thinking th =>
      simp only [linkToolResults]
      exact ih messages updAcc trAcc htail
    | toolUse i nm inp =>
      simp only [linkToolResults]
      exact ih messages updAcc trAcc htail

/-- Extending the snapshot by one turn extends the id map by at most that
turn's entry. -/
theorem buildMessageMap_append (l : List ChatMessage) (r : ChatMessage) :
    buildMessageMap (l ++ [r]) =
      (if (buildMessageMap l).any (fun e => e.1 = r.id) then buildMessageMap l
       else buildMessageMap l ++ [(r.id, r)]) := by
  unfold buildMessageMap
  rw [List.foldl_append]
  rfl

/-- Diffing a snapshot against itself-plus-one-appended-turn reports no
updated and no removed turns. -/
theorem diffMessages_append_single (prev : List ChatMessage) (r : ChatMessage) :
    (diffMessages prev (prev ++ [r]) []).updated = [] ∧
    (diffMessages prev (prev ++ [r]) []).removed = [] := by
  have hinv := buildMessageMap_inv prev
  unfold diffMessages
  dsimp only
  rw [buildMessageMap_append]
  by_cases hdup : (buildMessageMap prev).any (fun e => e.1 = r.id)
  · rw [if_pos hdup]
    constructor
    · rw [List.map_eq_nil_iff, List.filter_eq_nil_iff]
      intro e he
      rw [assocFind_of_mem (buildMessageMap prev) hinv.1 e he]
      simp
    · rw [List.map_eq_nil_iff, List.filter_eq_nil_iff]
      intro e he
      simp only [Bool.not_eq_true', Bool.not_eq_false, List.any_eq_true]
      exact ⟨e, he, by simp⟩
  · rw [if_neg hdup]
    have hfind : assocFind (buildMessageMap prev) r.id = none := by
      unfold assocFind
      rw [List.find?_eq_none.mpr]
      · rfl
      · intro x hx hcon
        exact hdup (List.any_eq_true.mpr ⟨x, hx, hcon⟩)
    constructor
    · rw [List.map_eq_nil_iff, List.filter_append, List.append_eq_nil,
        List.filter_eq_nil_iff, List.filter_eq_nil_iff]
      constructor
      · intro e he
        rw [assocFind_of_mem (buildMessageMap prev) hinv.1 e he]
        simp
      · intro e he
        have he' : e = (r.id, r) := by simpa using he
        subst he'
        rw [hfind]
        simp
    · rw [List.map_eq_nil_iff, List.filter_eq_nil_iff]
      intro e he
      simp only [Bool.not_eq_true', Bool.not_eq_false, List.any_eq_true]
      exact ⟨e, List.mem_append_left _ he, by simp⟩

/-- Installing a snapshot extended by one appended turn, with no explicit
updates and no tool-result updates, emits no `message_updated` and no
`tool_result_updated` notification. -/
theorem applyMessageUpdates_append_single (s : SessionState)
    (prev : List ChatMessage) (r : ChatMessage) :
    (applyMessageUpdates s prev (prev ++ [r]) [] []).1.messages = prev ++ [r] ∧
    (applyMessageUpdates s prev (prev ++ [r]) [] []).2.countP
      BroadcastMessage.isMessageUpdated = 0 ∧
    (applyMessageUpdates s prev (prev ++ [r]) [] []).2.countP
      BroadcastMessage.isToolResultUpdated = 0 := by
  obtain ⟨hupd, hrem⟩ := diffMessages_append_single prev r
  unfold applyMessageUpdates
  dsimp only
  rw [hupd, hrem]
  refine ⟨rfl, ?_, ?_⟩
  · rw [List.countP_eq_zero]
    intro a ha
    simp only [List.map_nil, List.filterMap_nil, List.nil_append, List.append_nil,
      List.mem_append, List.mem_map, List.mem_singleton] at ha
    rcases ha with ⟨m, _, hm⟩ | hinfo
    · rw [← hm]; simp [BroadcastMessage.isMessageUpdated]
    · rw [hinfo]; simp [emitSessionInfo, BroadcastMessage.isMessageUpdated]
  · rw [List.countP_eq_zero]
    intro a ha
    simp only [List.map_nil, List.filterMap_nil, List.nil_append, List.append_nil,
      List.mem_append, List.mem_map, List.mem_singleton] at ha
    rcases ha with ⟨m, _, hm⟩ | hinfo
    · rw [← hm]; simp [BroadcastMessage.isToolResultUpdated]
    · rw [hinfo]; simp [emitSessionInfo, BroadcastMessage.isToolResultUpdated]

/-- C10: on any coalesce-stable history, an incoming user fragment whose
`tool_result` blocks all carry invocation ids matching no invocation part of
the history mutates no existing turn (the linker returns the history verbatim
with empty update accumulators), the fragment is still rendered and appended
as a new turn, and the live-update pipeline emits no `message_updated` and no
`tool_result_updated` notification — the unmatched results are silently
dropped from linking rather than raising an error. -/
theorem unmatched_result_spec (fresh : FreshData) (s : SessionState)
    (uuid : Option String) (ts : Option Int) (sid : String)
    (blocks : List ContentBlock)
    (hfix : coalesceReadMessages s.messages = s.messages)
    (hnm : ∀ tr : ToolResultBlock, ContentBlock.toolResult tr ∈ blocks →
      findMostRecentToolUse s.messages tr.toolUseId = none) :
    ∃ rendered : ChatMessage,
      rendered.type = .user ∧
      appendRenderableMessage fresh s.messages
        (.user uuid ts sid (.ofBlocks blocks)) =
        ⟨s.messages ++ [rendered], some rendered, [], []⟩ ∧
      (processIncomingMessage fresh s
        (.user uuid ts sid (.ofBlocks blocks))).1.messages =
        s.messages ++ [rendered] ∧
      (processIncomingMessage fresh s
        (.user uuid ts sid (.ofBlocks blocks))).2.countP
        BroadcastMessage.isMessageUpdated = 0 ∧
      (processIncomingMessage fresh s
        (.user uuid ts sid (.ofBlocks blocks))).2.countP
        BroadcastMessage.isToolResultUpdated = 0 := by
  have hlink : linkToolResults s.messages blocks [] [] = (s.messages, [], []) :=
    linkToolResults_no_match blocks s.messages [] [] hnm
  have happ : appendRenderableMessage fresh s.messages
      (.user uuid ts sid (.ofBlocks blocks)) =
      ⟨s.messages ++ [⟨.user, blocks.map (fun b => ⟨b, none⟩), ts.getD fresh.now,
        uuid.getD fresh.id, fresh.ref⟩],
       some ⟨.user, blocks.map (fun b => ⟨b, none⟩), ts.getD fresh.now,
        uuid.getD fresh.id, fresh.ref⟩, [], []⟩ := by
    unfold appendRenderableMessage
    dsimp only
    rw [hlink]
    rfl
  have hNoAdj : NoAdjacentReads s.messages := by
    have h := chain'_coalesceAux s.messages.length 0 s.messages (Nat.le_refl _)
    have hfix' : coalesceAux 0 s.messages = s.messages := hfix
    rw [hfix'] at h
    exact h
  have hchain : NoAdjacentReads (s.messages ++
      [(⟨.user, blocks.map (fun b => ⟨b, none⟩), ts.getD fresh.now,
        uuid.getD fresh.id, fresh.ref⟩ : ChatMessage)]) := by
    show List.Chain' _ (_ ++ _)
    rw [List.chain'_append]
    refine ⟨hNoAdj, List.chain'_singleton _, ?_⟩
    intro x _ y hy hcon
    have hy' : (⟨.user, blocks.map (fun b => ⟨b, none⟩), ts.getD fresh.now,
        uuid.getD fresh.id, fresh.ref⟩ : ChatMessage) = y := by simpa using hy
    rw [← hy'] at hcon
    exact absurd hcon.2 (by simp [readPred, isReadToolUse])
  have hcoal : coalesceReadMessages (s.messages ++
      [(⟨.user, blocks.map (fun b => ⟨b, none⟩), ts.getD fresh.now,
        uuid.getD fresh.id, fresh.ref⟩ : ChatMessage)]) =
      s.messages ++ [⟨.user, blocks.map (fun b => ⟨b, none⟩), ts.getD fresh.now,
        uuid.getD fresh.id, fresh.ref⟩] :=
    coalesceAux_of_chain 0 _ hchain
  have hamu := applyMessageUpdates_append_single s s.messages
    ⟨.user, blocks.map (fun b => ⟨b, none⟩), ts.getD fresh.now,
      uuid.getD fresh.id, fresh.ref⟩
  refine ⟨⟨.user, blocks.map (fun b => ⟨b, none⟩), ts.getD fresh.now,
    uuid.getD fresh.id, fresh.ref⟩, rfl, happ, ?_, ?_, ?_⟩
  · show (applyMessageUpdates s s.messages
        (coalesceReadMessages (appendRenderableMessage fresh s.messages
          (.user uuid ts sid (.ofBlocks blocks))).messages)
        (appendRenderableMessage fresh s.messages
          (.user uuid ts sid (.ofBlocks blocks))).updatedMessages
        (appendRenderableMessage fresh s.messages
          (.user uuid ts sid (.ofBlocks blocks))).toolResultUpdates).1.messages = _
    rw [happ]
    dsimp only
    rw [hcoal]
    exact hamu.1
  · show (applyMessageUpdates s s.messages
        (coalesceReadMessages (appendRenderableMessage fresh s.messages
          (.user uuid ts sid (.ofBlocks blocks))).messages)
        (appendRenderableMessage fresh s.messages
          (.user uuid ts sid (.ofBlocks blocks))).updatedMessages
        (appendRenderableMessage fresh s.messages
          (.user uuid ts sid (.ofBlocks blocks))).toolResultUpdates).2.countP
        BroadcastMessage.isMessageUpdated = 0
    rw [happ]
    dsimp only
    rw [hcoal]
    exact hamu.2.1
  · show (applyMessageUpdates s s.messages
        (coalesceReadMessages (appendRenderableMessage fresh s.messages
          (.user uuid ts sid (.ofBlocks blocks))).messages)
        (appendRenderableMessage fresh s.messages
          (.user uuid ts sid (.ofBlocks blocks))).updatedMessages
        (appendRenderableMessage fresh s.messages
          (.user uuid ts sid (.ofBlocks blocks))).toolResultUpdates).2.countP
        BroadcastMessage.isToolResultUpdated = 0
    rw [happ]
    dsimp only
    rw [hcoal]
    exact hamu.2.2

/-- C10 witness: the concrete unmatched-result scenario, with the history a
single answered-free assistant turn and the fragment carrying result id `Z`
matched by nothing. -/
theorem unmatched_result_spec_witness :
    ∃ rendered : ChatMessage,
      rendered.type = .user ∧
      appendRenderableMessage (genDefault 0) c10State.messages
        (.user (some "u1") (some 9) "sess" (.ofBlocks c10Blocks)) =
        ⟨c10State.messages ++ [rendered], some rendered, [], []⟩ ∧
      (processIncomingMessage (genDefault 0) c10State
        (.user (some "u1") (some 9) "sess" (.ofBlocks c10Blocks))).1.messages =
        c10State.messages ++ [rendered] ∧
      (processIncomingMessage (genDefault 0) c10State
        (.user (some "u1") (some 9) "sess" (.ofBlocks c10Blocks))).2.countP
        BroadcastMessage.isMessageUpdated = 0 ∧
      (processIncomingMessage (genDefault 0) c10State
        (.user (some "u1") (some 9) "sess" (.ofBlocks c10Blocks))).2.countP
        BroadcastMessage.isToolResultUpdated = 0 :=
  unmatched_result_spec (genDefault 0) c10State (some "u1") (some 9) "sess"
    c10Blocks
    (coalesceAux_of_chain 0 c10State.messages (by simp [NoAdjacentReads, c10State]))
    (by
      intro tr htr
      have h1 : tr = ⟨"Z", "stale result", false⟩ := by
        simpa [c10Blocks] using htr
      subst h1
      decide)

end CCSession
